import Mathlib

/-!
Verification development for the L7 TCP load-balancer simulation
(proxy core, framing header, stream reassembly, and the backend
selectors: WRR, Least-Request, Random, RingHash, Maglev, Peak-EWMA).

The definitions below are shallow embeddings translated from the C++
sources.  Machine integers are modelled as `Nat`/`Int` with explicit
`% 2^w` reductions where conversions occur; `double` state of the
Peak-EWMA metric is modelled over `ℝ` with `Real.exp`; byte strings are
`List Nat` with every byte `< 256`; `std::map` containers are modelled
as key-sorted association lists.
-/

open Classical

/-! ### Request/response framing header

Translated from `RequestResponseHeader` (request_response_header.h and
topology.cc): fields seq (uint32), timestamp (int64 nanoseconds),
payload_size (uint32), l7_id (uint64); serialization writes each field
big-endian via `WriteHtonU32`/`WriteHtonU64` in declaration order. -/

structure RequestResponseHeader where
  seq : Nat
  timestampNs : Int
  payloadSize : Nat
  l7Identifier : Nat
deriving DecidableEq

/-- Serialized size of the header: sizeof(uint32) + sizeof(int64) +
sizeof(uint32) + sizeof(uint64), from `GetSerializedSize`. -/
def headerSerializedSize : Nat := 4 + 8 + 4 + 8

/-- Big-endian bytes of a 32-bit value (`WriteHtonU32`); the byte
formulas reduce the value modulo 2^32 just as the uint32_t argument
conversion does. -/
def beBytes32 (v : Nat) : List Nat :=
  [v / 2 ^ 24 % 256, v / 2 ^ 16 % 256, v / 2 ^ 8 % 256, v % 256]

/-- Big-endian bytes of a 64-bit value (`WriteHtonU64`). -/
def beBytes64 (v : Nat) : List Nat :=
  [v / 2 ^ 56 % 256, v / 2 ^ 48 % 256, v / 2 ^ 40 % 256, v / 2 ^ 32 % 256,
   v / 2 ^ 24 % 256, v / 2 ^ 16 % 256, v / 2 ^ 8 % 256, v % 256]

/-- Two's-complement conversion int64 → uint64 applied when the
timestamp is passed to `WriteHtonU64`. -/
def i64ToU64 (t : Int) : Nat := (t % 2 ^ 64).toNat

/-- Two's-complement conversion uint64 → int64 applied when
`ReadNtohU64` feeds `int64_t timeNs`. -/
def u64ToI64 (v : Nat) : Int :=
  if v < 2 ^ 63 then (v : Int) else (v : Int) - 2 ^ 64

/-- Byte at offset i of a buffer (reads past the end yield 0; the code
never reads past the end because callers guarantee 24 bytes). -/
def byteAt (buf : List Nat) (i : Nat) : Nat := buf.getD i 0

/-- Big-endian read of a 32-bit value at an offset (`ReadNtohU32`). -/
def beRead32 (buf : List Nat) (off : Nat) : Nat :=
  byteAt buf off * 2 ^ 24 + byteAt buf (off + 1) * 2 ^ 16 +
    byteAt buf (off + 2) * 2 ^ 8 + byteAt buf (off + 3)

/-- Big-endian read of a 64-bit value at an offset (`ReadNtohU64`). -/
def beRead64 (buf : List Nat) (off : Nat) : Nat :=
  byteAt buf off * 2 ^ 56 + byteAt buf (off + 1) * 2 ^ 48 +
    byteAt buf (off + 2) * 2 ^ 40 + byteAt buf (off + 3) * 2 ^ 32 +
    byteAt buf (off + 4) * 2 ^ 24 + byteAt buf (off + 5) * 2 ^ 16 +
    byteAt buf (off + 6) * 2 ^ 8 + byteAt buf (off + 7)

/-- Serialization from `RequestResponseHeader::Serialize`: seq,
timestamp nanoseconds, payload_size, l7_id, each big-endian. -/
def RequestResponseHeader.Serialize (h : RequestResponseHeader) : List Nat :=
  beBytes32 h.seq ++ beBytes64 (i64ToU64 h.timestampNs) ++
    beBytes32 h.payloadSize ++ beBytes64 h.l7Identifier

/-- Deserialization from `RequestResponseHeader::Deserialize`: reads the
four fields back in order; total for any buffer (a 24-byte prefix fully
determines the result). -/
def RequestResponseHeader.Deserialize (buf : List Nat) : RequestResponseHeader :=
  { seq := beRead32 buf 0
    timestampNs := u64ToI64 (beRead64 buf 4)
    payloadSize := beRead32 buf 12
    l7Identifier := beRead64 buf 16 }

/-! ### Stream reassembly

Translated from the rx-buffer loop of `LoadBalancerApp::HandleClientRead`
(the identical loop appears in `HandleBackendRead`): while at least
`headerSerializedSize` bytes are buffered, peek the header, compute
`uint32_t expectedTotalSize = headerSize + expectedPayloadSize` — a
uint32 sum, so it wraps modulo 2^32 for payload sizes of at least
2^32 − 24 — and either consume exactly `total` bytes as one message or
stop and wait for more data.  The C++ `while` loop is rendered with an
explicit fuel equal to the buffer length, which bounds its iteration
count in the model (when the wrapped total is 0 the C++ loop itself
never terminates; the fuel then runs out with the rest of the buffer
left in place). -/

def reassembleFuel : Nat → List Nat → List (List Nat) × List Nat
  | 0, buf => ([], buf)
  | fuel + 1, buf =>
    if buf.length < headerSerializedSize then ([], buf)
    else
      let total := (headerSerializedSize +
        (RequestResponseHeader.Deserialize buf).payloadSize) % 2 ^ 32
      if buf.length < total then ([], buf)
      else
        let msg := buf.take total
        let r := reassembleFuel fuel (buf.drop total)
        (msg :: r.1, r.2)

/-- The reassembly loop applied to a buffer. -/
def reassemble (buf : List Nat) : List (List Nat) × List Nat :=
  reassembleFuel buf.length buf

/-- A 24-byte buffer holding exactly one serialized header whose
payload-size field is the maximal uint32 value 2^32 − 1 (no payload
bytes follow). -/
def wrapHeaderBuf : List Nat :=
  RequestResponseHeader.Serialize
    { seq := 0, timestampNs := 0, payloadSize := 2 ^ 32 - 1, l7Identifier := 0 }

/-! ### Backend registry

Translated from `BackendInfo` and `LoadBalancerApp` (load_balancer.h,
part of the proxy core): an ordered vector of
`(address, weight, activeRequests)` with first-match lookup by address
(`FindBackendInfo` uses `std::find_if`).  Addresses are modelled as
natural numbers. -/

structure BackendInfo where
  address : Nat
  weight : Nat
  activeRequests : Nat
deriving DecidableEq

/-- Weight of the backend at an index (0 past the end; indices used by
the algorithms are always in range). -/
def bweight (l : List BackendInfo) (i : Nat) : Nat :=
  ((l.get? i).map BackendInfo.weight).getD 0

/-- Address of the backend at an index. -/
def baddr (l : List BackendInfo) (i : Nat) : Nat :=
  ((l.get? i).map BackendInfo.address).getD 0

/-- Sum of `activeRequests` over the registry. -/
def sumActive (l : List BackendInfo) : Nat :=
  (l.map BackendInfo.activeRequests).sum

/-- Active-request count of the first entry with the given address
(reading through `FindBackendInfo`); 0 when absent. -/
def activeOf (l : List BackendInfo) (a : Nat) : Nat :=
  ((l.find? (fun b => b.address = a)).map BackendInfo.activeRequests).getD 0

/-- `LoadBalancerApp::SetBackends`: clear and rebuild the registry from
the given (address, weight) pairs, all activeRequests starting at 0. -/
def LoadBalancerApp.SetBackends (pairs : List (Nat × Nat)) : List BackendInfo :=
  pairs.map (fun p => { address := p.1, weight := p.2, activeRequests := 0 })

/-- `LoadBalancerApp::AddBackend`: if no entry has the address, append a
new entry with activeRequests 0; otherwise update the weight of the
first matching entry in place (active count untouched). -/
def LoadBalancerApp.AddBackend (reg : List BackendInfo) (addr weight : Nat) :
    List BackendInfo :=
  match reg with
  | [] => [{ address := addr, weight := weight, activeRequests := 0 }]
  | b :: t =>
    if b.address = addr then { b with weight := weight } :: t
    else b :: LoadBalancerApp.AddBackend t addr weight

/-! ### Per-selector in-flight notification methods

`NotifyRequestSent` / `NotifyRequestFinished` of each selector, from
round_robin_load_balancer.cc, random_load_balancer (part_002),
ring_hash_load_balancer (part_004), maglev (part_001): all four are
no-ops on the registry; least_request_load_balancer.h increments and
decrements `activeRequests` of the first matching entry (decrement
floors at 0); peak_ewma_load_balancer.cc touches only its metric map. -/

def WeightedRoundRobinLoadBalancer.NotifyRequestSent
    (reg : List BackendInfo) (_addr : Nat) : List BackendInfo := reg

def WeightedRoundRobinLoadBalancer.NotifyRequestFinished
    (reg : List BackendInfo) (_addr : Nat) : List BackendInfo := reg

def RandomLoadBalancer.NotifyRequestSent
    (reg : List BackendInfo) (_addr : Nat) : List BackendInfo := reg

def RandomLoadBalancer.NotifyRequestFinished
    (reg : List BackendInfo) (_addr : Nat) : List BackendInfo := reg

def RingHashLoadBalancer.NotifyRequestSent
    (reg : List BackendInfo) (_addr : Nat) : List BackendInfo := reg

def RingHashLoadBalancer.NotifyRequestFinished
    (reg : List BackendInfo) (_addr : Nat) : List BackendInfo := reg

def MaglevLoadBalancer.NotifyRequestSent
    (reg : List BackendInfo) (_addr : Nat) : List BackendInfo := reg

def MaglevLoadBalancer.NotifyRequestFinished
    (reg : List BackendInfo) (_addr : Nat) : List BackendInfo := reg

/-- `LeastRequestLoadBalancer::NotifyRequestSent`: increment the active
count of the first entry with the address; no-op if the address is
unknown. -/
def LeastRequestLoadBalancer.NotifyRequestSent
    (reg : List BackendInfo) (addr : Nat) : List BackendInfo :=
  match reg with
  | [] => []
  | b :: t =>
    if b.address = addr then { b with activeRequests := b.activeRequests + 1 } :: t
    else b :: LeastRequestLoadBalancer.NotifyRequestSent t addr

/-- `LeastRequestLoadBalancer::NotifyRequestFinished`: decrement the
active count of the first entry with the address, flooring at 0; no-op
if the address is unknown. -/
def LeastRequestLoadBalancer.NotifyRequestFinished
    (reg : List BackendInfo) (addr : Nat) : List BackendInfo :=
  match reg with
  | [] => []
  | b :: t =>
    if b.address = addr then
      { b with activeRequests :=
          if 0 < b.activeRequests then b.activeRequests - 1 else b.activeRequests } :: t
    else b :: LeastRequestLoadBalancer.NotifyRequestFinished t addr

/-- Events delivered to a selector's notification interface. -/
inductive NotifyEvent where
  | sent (addr : Nat)
  | finished (addr : Nat)
deriving DecidableEq

/-- Address carried by a notification event. -/
def NotifyEvent.addr : NotifyEvent → Nat
  | .sent a => a
  | .finished a => a

/-- Apply one notification event to a Least-Request registry. -/
def lrApply (reg : List BackendInfo) : NotifyEvent → List BackendInfo
  | .sent a => LeastRequestLoadBalancer.NotifyRequestSent reg a
  | .finished a => LeastRequestLoadBalancer.NotifyRequestFinished reg a

/-- Run a sequence of notification events on a Least-Request registry. -/
def lrRun (reg : List BackendInfo) (evs : List NotifyEvent) : List BackendInfo :=
  evs.foldl lrApply reg

/-- Number of `sent` events for an address. -/
def sentCount (evs : List NotifyEvent) (a : Nat) : Nat :=
  evs.countP (fun e => e = NotifyEvent.sent a)

/-- Number of `finished` events for an address. -/
def finCount (evs : List NotifyEvent) (a : Nat) : Nat :=
  evs.countP (fun e => e = NotifyEvent.finished a)

/-- Total number of `sent` events. -/
def totalSent (evs : List NotifyEvent) : Nat :=
  evs.countP (fun e => match e with | .sent _ => true | _ => false)

/-- Total number of `finished` events. -/
def totalFin (evs : List NotifyEvent) : Nat :=
  evs.countP (fun e => match e with | .finished _ => true | _ => false)

/-! ### Peak-EWMA metric

Translated from `EwmaMetric` (peak_ewma header, with `double` state over
`ℝ` and `std::exp` as `Real.exp`).  `std::numeric_limits<double>::epsilon()`
is the machine epsilon 2^(-52). -/

/-- Machine epsilon of `double`, used by the peak-reset and penalty
branches. -/
noncomputable def dblEpsilon : ℝ := 2 ^ (-(52 : ℤ))

structure EwmaMetric where
  stampNs : Int
  pending : Nat
  costNs : ℝ
  decayTimeNs : Int
  penaltyNs : ℝ

/-- The `EwmaMetric(Time decayTime)` constructor: stamp at the current
time, pending 0, cost 0, decay clamped to at least 1 ns, penalty of one
second in nanoseconds. -/
def EwmaMetric.fresh (now decayTimeNs : Int) : EwmaMetric :=
  { stampNs := now
    pending := 0
    costNs := 0
    decayTimeNs := max 1 decayTimeNs
    penaltyNs := 1000000000 }

/-- `EwmaMetric::Observe(rttNs)`: tdiff = max(0, now − stamp); stamp :=
now; reset cost to 0 when the new rtt exceeds the cost and the cost
exceeds machine epsilon; then EWMA-update the cost with weight
w = exp(−tdiff/decay). -/
noncomputable def EwmaMetric.Observe (now rttNs : Int) (m : EwmaMetric) : EwmaMetric :=
  let tdiff : Int := max 0 (now - m.stampNs)
  let cost0 : ℝ :=
    if (rttNs : ℝ) > m.costNs ∧ m.costNs > dblEpsilon then 0 else m.costNs
  let w : ℝ := Real.exp (-(tdiff : ℝ) / (m.decayTimeNs : ℝ))
  { m with stampNs := now, costNs := cost0 * w + (rttNs : ℝ) * (1 - w) }

/-- `EwmaMetric::GetLoad()`: decay the cost if time has passed (tdiff >
0), updating the stamp; then return penalty + pending when the cost is
at most machine epsilon and requests are pending, else
cost · (pending + 1); clamp at 0.  Returns the updated metric and the
load score. -/
noncomputable def EwmaMetric.GetLoad (now : Int) (m : EwmaMetric) : EwmaMetric × ℝ :=
  let tdiff : Int := max 0 (now - m.stampNs)
  let m1 :=
    if 0 < tdiff then
      { m with costNs := m.costNs * Real.exp (-(tdiff : ℝ) / (m.decayTimeNs : ℝ)),
               stampNs := now }
    else m
  let score : ℝ :=
    if m1.costNs ≤ dblEpsilon ∧ 0 < m1.pending then m1.penaltyNs + (m1.pending : ℝ)
    else m1.costNs * ((m1.pending : ℝ) + 1)
  (m1, max 0 score)

/-- `EwmaMetric::IncrementPending`. -/
def EwmaMetric.IncrementPending (m : EwmaMetric) : EwmaMetric :=
  { m with pending := m.pending + 1 }

/-- `EwmaMetric::DecrementPending` (floors at 0). -/
def EwmaMetric.DecrementPending (m : EwmaMetric) : EwmaMetric :=
  if 0 < m.pending then { m with pending := m.pending - 1 } else m

/-- The spec's wording of `observe` (claim C3): identical to the source
except that the peak reset fires whenever `rtt_ns > cost` and
`cost > 0`, with no epsilon tolerance. -/
noncomputable def ewmaObserveSpec (now rttNs : Int) (m : EwmaMetric) : EwmaMetric :=
  let dt : Int := max 0 (now - m.stampNs)
  let cost0 : ℝ :=
    if (rttNs : ℝ) > m.costNs ∧ m.costNs > 0 then 0 else m.costNs
  let w : ℝ := Real.exp (-(dt : ℝ) / (m.decayTimeNs : ℝ))
  { m with stampNs := now, costNs := cost0 * w + (rttNs : ℝ) * (1 - w) }

/-- The spec's wording of `observe` amended by the counterexample: the
peak reset fires when `rtt_ns > cost` and `cost > ε` with ε the machine
epsilon of `double`. -/
noncomputable def ewmaObserveAmended (now rttNs : Int) (m : EwmaMetric) : EwmaMetric :=
  let dt : Int := max 0 (now - m.stampNs)
  let cost0 : ℝ :=
    if (rttNs : ℝ) > m.costNs ∧ m.costNs > dblEpsilon then 0 else m.costNs
  let w : ℝ := Real.exp (-(dt : ℝ) / (m.decayTimeNs : ℝ))
  { m with stampNs := now, costNs := cost0 * w + (rttNs : ℝ) * (1 - w) }

/-- The spec's wording of `load()` (claim C3): decay cost by the elapsed
time since the last update and set last_update := now unconditionally;
penalty branch when the cost is approximately zero (at most ε) and
requests are pending; clamp at 0. -/
noncomputable def ewmaGetLoadSpec (now : Int) (m : EwmaMetric) : EwmaMetric × ℝ :=
  let dt : Int := max 0 (now - m.stampNs)
  let m1 := { m with costNs := m.costNs * Real.exp (-(dt : ℝ) / (m.decayTimeNs : ℝ)),
                     stampNs := now }
  let score : ℝ :=
    if m1.costNs ≤ dblEpsilon ∧ 0 < m1.pending then m1.penaltyNs + (m1.pending : ℝ)
    else m1.costNs * ((m1.pending : ℝ) + 1)
  (m1, max 0 score)

/-! ### Peak-EWMA selector state

The metric map `m_backendMetrics` is a `std::map<InetSocketAddress,
EwmaMetric>`; it is modelled as an association list where `emplace`
inserts only when the key is absent. -/

/-- Map emplace: insert only when the key is absent (C++
`std::map::emplace`). -/
def metricsEmplace (key : Nat) (v : EwmaMetric) (m : List (Nat × EwmaMetric)) :
    List (Nat × EwmaMetric) :=
  if (m.lookup key).isSome then m else m ++ [(key, v)]

/-- `PeakEwmaLoadBalancer::SetBackends`: the base class rebuilds the
registry, then `m_backendMetrics.clear()` discards the previous metric
map entirely and a fresh `EwmaMetric` is emplaced for every backend of
the new registry. -/
noncomputable def PeakEwmaLoadBalancer.SetBackends (now decayTimeNs : Int)
    (pairs : List (Nat × Nat)) (_oldMetrics : List (Nat × EwmaMetric)) :
    List BackendInfo × List (Nat × EwmaMetric) :=
  let reg := LoadBalancerApp.SetBackends pairs
  let cleared : List (Nat × EwmaMetric) := []
  let metrics := reg.foldl
    (fun acc b => metricsEmplace b.address (EwmaMetric.fresh now decayTimeNs) acc) cleared
  (reg, metrics)

/-- `PeakEwmaLoadBalancer::NotifyRequestSent`: increment pending on the
metric of the address; the registry is untouched. -/
def PeakEwmaLoadBalancer.NotifyRequestSent (metrics : List (Nat × EwmaMetric))
    (addr : Nat) : List (Nat × EwmaMetric) :=
  match metrics with
  | [] => []
  | (k, m) :: t =>
    if k = addr then (k, m.IncrementPending) :: t
    else (k, m) :: PeakEwmaLoadBalancer.NotifyRequestSent t addr

/-- `PeakEwmaLoadBalancer::NotifyRequestFinished`: decrement pending on
the metric of the address; the registry is untouched. -/
def PeakEwmaLoadBalancer.NotifyRequestFinished (metrics : List (Nat × EwmaMetric))
    (addr : Nat) : List (Nat × EwmaMetric) :=
  match metrics with
  | [] => []
  | (k, m) :: t =>
    if k = addr then (k, m.DecrementPending) :: t
    else (k, m) :: PeakEwmaLoadBalancer.NotifyRequestFinished t addr

/-! ### Weighted Round-Robin selector

Translated from `WeightedRoundRobinLoadBalancer`
(round_robin_load_balancer.cc/.h).  `m_currentIndex` is a `size_t`,
`m_currentWeight` an `int32_t` (Int here; the comparison against a
weight converts it to uint32, modelled by `u32cast`), `m_maxWeight` and
`m_gcdWeight` are `uint32_t`. -/

structure WrrState where
  backends : List BackendInfo
  currentIndex : Nat
  currentWeight : Int
  maxWeight : Nat
  gcdWeight : Nat
deriving DecidableEq

/-- Conversion int32 → uint32 performed by
`static_cast<uint32_t>(m_currentWeight)` in the acceptance test. -/
def u32cast (x : Int) : Nat := (x % 2 ^ 32).toNat

/-- Two's-complement wrap into int32 performed by the implicit
conversions that store into the `int32_t m_currentWeight` member: the
result of `m_currentWeight - m_gcdWeight` (computed in uint32 by the
usual arithmetic conversions) and the uint32 `m_maxWeight` assigned by
the reset. -/
def i32wrap (x : Int) : Int := (x + 2 ^ 31) % 2 ^ 32 - 2 ^ 31

/-- Reset applied to the current-weight marker at a wrap:
`if (m_currentWeight <= 0) m_currentWeight = m_maxWeight;` — the uint32
maximum weight wraps when stored into the int32 member. -/
def wrrReset (c : Int) (maxW : Nat) : Int := if c ≤ 0 then i32wrap (maxW : Int) else c

/-- One iteration of the Nginx smooth-WRR selection loop: advance the
index modulo the backend count and, when it wraps to 0, execute
`m_currentWeight = m_currentWeight - m_gcdWeight` (int32, wrapping) and
reset to the maximum weight when the marker drops to 0 or below.  (The
source's inner `maxWeight == 0` early-return inside this block is
unreachable because `ChooseBackend` only enters the loop after
establishing `maxWeight > 0`.) -/
def wrrStep (st : WrrState) : WrrState :=
  let i := (st.currentIndex + 1) % st.backends.length
  if i = 0 then
    { st with currentIndex := i,
              currentWeight := wrrReset (i32wrap (st.currentWeight - (st.gcdWeight : Int))) st.maxWeight }
  else { st with currentIndex := i }

/-- Spec-side reset following the claim's words: exact integers,
`cw = max_w` without any wrap. -/
def wrrResetSpec (c : Int) (maxW : Nat) : Int := if c ≤ 0 then (maxW : Int) else c

/-- Spec-side loop iteration following the claim's words (`i = (i+1) mod
n`; at a wrap, `cw = cw − gcd_w`, and `cw = max_w` when `cw ≤ 0`), with
exact integer arithmetic instead of the source's int32 marker.  Compared
against the source-translated `wrrStep` in the theorems about the
claim. -/
def wrrStepSpec (st : WrrState) : WrrState :=
  let i := (st.currentIndex + 1) % st.backends.length
  if i = 0 then
    { st with currentIndex := i,
              currentWeight := wrrResetSpec (st.currentWeight - (st.gcdWeight : Int)) st.maxWeight }
  else { st with currentIndex := i }

/-- Acceptance test of the loop: the backend at the current index is
selected iff its weight is positive and at least the (uint32-cast)
current-weight marker. -/
def wrrAccept (st : WrrState) : Bool :=
  decide (0 < bweight st.backends st.currentIndex) &&
    decide (u32cast st.currentWeight ≤ bweight st.backends st.currentIndex)

/-- The `while (true)` selection loop, with fuel (the loop always
terminates within the fuel supplied by `ChooseBackend`; proved in the
theorem about the claim).  Returns the accepted index together with the
state at acceptance. -/
def wrrLoop : Nat → WrrState → Option (Nat × WrrState)
  | 0, _ => none
  | fuel + 1, st =>
    let st' := wrrStep st
    if wrrAccept st' then some (st'.currentIndex, st') else wrrLoop fuel st'

/-- Fuel sufficient for the selection loop (established by the
termination proof). -/
def wrrFuel (st : WrrState) : Nat := st.backends.length * (st.maxWeight + 2) + 1

/-- `WeightedRoundRobinLoadBalancer::ChooseBackend`: fail on an empty
backend list; if no backend has positive weight (maxWeight = 0), fall
back to the first backend; otherwise run the smooth-WRR loop. -/
def WeightedRoundRobinLoadBalancer.ChooseBackend (st : WrrState) :
    Option Nat × WrrState :=
  if st.backends.length = 0 then (none, st)
  else if st.maxWeight = 0 then (some (baddr st.backends 0), st)
  else
    match wrrLoop (wrrFuel st) st with
    | some (i, st') => (some (baddr st.backends i), st')
    | none => (none, st)

/-- `WeightedRoundRobinLoadBalancer::RecalculateWrrState`: recompute the
maximum and gcd of the positive weights (gcd falling back to the max and
then to 1 when it would be 0) and reset index to size−1, marker to 0. -/
def WeightedRoundRobinLoadBalancer.RecalculateWrrState (st : WrrState) : WrrState :=
  if st.backends.isEmpty then
    { st with maxWeight := 0, gcdWeight := 0, currentIndex := 0, currentWeight := 0 }
  else
    let pos := st.backends.filter (fun b => 0 < b.weight)
    let maxW := pos.foldl (fun acc b => max acc b.weight) 0
    let calcGcd := pos.foldl (fun acc b => Nat.gcd acc b.weight) 0
    if pos.isEmpty then
      { st with maxWeight := 0, gcdWeight := 0,
                currentIndex := st.backends.length - 1, currentWeight := 0 }
    else
      let g1 := if calcGcd = 0 ∧ 0 < maxW then maxW else calcGcd
      let g2 := if g1 = 0 then 1 else g1
      { st with maxWeight := maxW, gcdWeight := g2,
                currentIndex := st.backends.length - 1, currentWeight := 0 }

/-- `WeightedRoundRobinLoadBalancer::SetBackends`: base-class registry
rebuild followed by the WRR state recalculation. -/
def WeightedRoundRobinLoadBalancer.SetBackends (pairs : List (Nat × Nat))
    (st : WrrState) : WrrState :=
  WeightedRoundRobinLoadBalancer.RecalculateWrrState
    { st with backends := LoadBalancerApp.SetBackends pairs }

/-- State invariant of the WRR selector, established by
`RecalculateWrrState` when every weight is below 2^31: the index is in
range, the marker is between 0 and the maximum weight, the maximum
weight fits in int32 (the region where the int32 marker never wraps),
the gcd does not exceed the maximum, and when some weight is positive
the gcd is positive and the maximum weight is attained. -/
def WrrInv (st : WrrState) : Prop :=
  (st.backends ≠ [] → st.currentIndex < st.backends.length) ∧
  0 ≤ st.currentWeight ∧
  st.currentWeight ≤ (st.maxWeight : Int) ∧
  st.maxWeight < 2 ^ 31 ∧
  st.gcdWeight ≤ st.maxWeight ∧
  (0 < st.maxWeight →
    0 < st.gcdWeight ∧ ∃ j, j < st.backends.length ∧ bweight st.backends j = st.maxWeight)

/-- Iterated spec-side wrap updates of the current-weight marker: the
value of the marker after m wraps. -/
def wrrResetIter : Nat → Int → Nat → Nat → Int
  | 0, c, _, _ => c
  | m + 1, c, g, maxW => wrrResetIter m (wrrResetSpec (c - (g : Int)) maxW) g maxW

/-! ### Maglev selector

Translated from `MaglevLoadBalancer` (part_001).  The string hasher
`std::hash<std::string>` composed with the address/key formatting is
abstracted as hash functions on the numeric address (`hashAddr` for
`hash("<addr>")`, `hashSkip` for `hash("<addr>_skip")`) and on the L7
identifier (`hashL7` for `hash(std::to_string(l7))`); the algorithms
depend only on the resulting 64-bit values.  Lookup-table slots are
`Option Nat`, `none` standing for the port-0 sentinel. -/

/-- The attribute checker `MakeUintegerChecker<uint64_t>(1)` on
`TableSize`: every table size of at least 1 is accepted by the
configuration. -/
def maglevTableSizePermitted (t : Nat) : Bool := 1 ≤ t

/-- Divisor used by the skip computation
`(m_hasher(keySkip) % (m_tableSize - 1)) + 1` in `BuildTable`. -/
def maglevSkipDivisor (t : Nat) : Nat := t - 1

/-- Offset of a backend's permutation: `m_hasher(keyBase) % m_tableSize`. -/
def maglevOffset (hashAddr : Nat → Nat) (t addr : Nat) : Nat := hashAddr addr % t

/-- Skip of a backend's permutation,
`(m_hasher(keySkip) % (m_tableSize - 1)) + 1`.  The C++ `%` has no
defined result when the divisor is zero (division by zero, undefined
behaviour), which the source leaves unguarded; the embedding marks that
case `none`. -/
def maglevSkip (hashSkip : Nat → Nat) (t addr : Nat) : Option Nat :=
  if maglevSkipDivisor t = 0 then none
  else some (hashSkip addr % maglevSkipDivisor t + 1)

structure MaglevBuildEntry where
  address : Nat
  weight : Nat
  offset : Nat
  skip : Nat
  nextIndexInPermutation : Nat
  targetWeightScore : Nat
deriving DecidableEq

/-- Outcome of a table build: a completed table, an abort after the
safety limit (table invalidated), or divergence of the inner slot
search (the C++ `while` over an exhausted permutation cycle never
terminates). -/
inductive MaglevBuildResult where
  | built (table : List (Option Nat))
  | aborted
  | stuck
deriving DecidableEq

/-- Inner slot search of the build: starting from permutation cursor
`next`, find the first unclaimed slot `(offset + skip·next) % t`.  Fuel
`t` visits the entire permutation cycle; `none` marks the diverging C++
loop in which every slot of the cycle is already claimed. -/
def maglevFindSlot (t : Nat) (table : List (Option Nat)) (off skip : Nat) :
    Nat → Nat → Option (Nat × Nat)
  | 0, _ => none
  | fuel + 1, next =>
    let idx := (off + skip * next) % t
    if (table.getD idx none).isSome then maglevFindSlot t table off skip fuel (next + 1)
    else some (idx, next)

/-- One pass of the table-filling iteration over the sorted build
entries: an entry is skipped when `pass · weight < score`; otherwise its
score grows by the maximum weight and it claims the next free slot of
its permutation; the pass stops early once the table is full. -/
def maglevDoPass (t maxW pass : Nat) :
    List MaglevBuildEntry → List (Option Nat) → Nat →
    Option (List MaglevBuildEntry × List (Option Nat) × Nat)
  | [], table, filled => some ([], table, filled)
  | e :: rest, table, filled =>
    if pass * e.weight < e.targetWeightScore then
      match maglevDoPass t maxW pass rest table filled with
      | none => none
      | some (rest', table', filled') => some (e :: rest', table', filled')
    else
      let e1 := { e with targetWeightScore := e.targetWeightScore + maxW }
      match maglevFindSlot t table e1.offset e1.skip t e1.nextIndexInPermutation with
      | none => none
      | some (idx, k) =>
        let table' := table.set idx (some e1.address)
        let e2 := { e1 with nextIndexInPermutation := k + 1 }
        let filled' := filled + 1
        if filled' = t then some (e2 :: rest, table', filled')
        else
          match maglevDoPass t maxW pass rest table' filled' with
          | none => none
          | some (rest', table'', filled'') => some (e2 :: rest', table'', filled'')

/-- The `while (filledSlotsCount < m_tableSize)` build loop: run passes
`pass = 1, 2, …`; after each pass, abort (clearing the table) if the
pass counter exceeds `2·tableSize` while slots remain unclaimed.  The
fuel `2·t + 1` supplied by `BuildTable` always suffices because the
recursion stops at `pass + 1 > 2·t`. -/
def maglevBuildLoop (t maxW : Nat) :
    Nat → Nat → List MaglevBuildEntry → List (Option Nat) → Nat → MaglevBuildResult
  | 0, _, _, _, _ => .stuck
  | fuel + 1, pass, entries, table, filled =>
    if t ≤ filled then .built table
    else
      match maglevDoPass t maxW pass entries table filled with
      | none => .stuck
      | some (entries', table', filled') =>
        if t ≤ filled' then .built table'
        else if 2 * t < pass + 1 then .aborted
        else maglevBuildLoop t maxW fuel (pass + 1) entries' table' filled'

/-- Build entries for the positive-weight backends, with offset and skip
from the hashes, cursor and score 0 (the per-backend loop skips
zero-weight backends, so only they reach the hash computations).  The
whole list is `none` when some entry's skip computation divides by
zero. -/
def maglevMkEntries (hashAddr hashSkip : Nat → Nat) (t : Nat)
    (backends : List BackendInfo) : Option (List MaglevBuildEntry) :=
  (backends.filter (fun b => 0 < b.weight)).mapM (fun b =>
    (maglevSkip hashSkip t b.address).map (fun sk =>
      { address := b.address
        weight := b.weight
        offset := maglevOffset hashAddr t b.address
        skip := sk
        nextIndexInPermutation := 0
        targetWeightScore := 0 }))

/-- Sorting key of the build entries: ascending (offset, skip, address)
(the C++ tie-break compares the printed address string; the numeric
order used here differs only in which deterministic order results). -/
def maglevEntryLE (a b : MaglevBuildEntry) : Bool :=
  if a.offset ≠ b.offset then a.offset ≤ b.offset
  else if a.skip ≠ b.skip then a.skip ≤ b.skip
  else a.address ≤ b.address

/-- `MaglevLoadBalancer::BuildTable`: guards for an empty backend list,
zero table size and no positive-weight backend leave the table unbuilt;
otherwise sort the entries, start from an all-sentinel table and run the
filling loop.  Returns the built flag and the table; `none` marks the
executions with no defined result — the division by zero in the skip
computation and the diverging inner search. -/
def MaglevLoadBalancer.BuildTable (hashAddr hashSkip : Nat → Nat) (t : Nat)
    (backends : List BackendInfo) : Option (Bool × List (Option Nat)) :=
  if backends.isEmpty then some (false, [])
  else if t = 0 then some (false, [])
  else
    match maglevMkEntries hashAddr hashSkip t backends with
    | none => none
    | some entries =>
      if entries.length = 0 then some (false, [])
      else
        let maxW := (backends.filter (fun b => 0 < b.weight)).foldl
          (fun acc b => max acc b.weight) 0
        let sorted := entries.mergeSort maglevEntryLE
        match maglevBuildLoop t maxW (2 * t + 1) 1 sorted (List.replicate t none) 0 with
        | .built table => some (true, table)
        | .aborted => some (false, [])
        | .stuck => none

structure MaglevState where
  tableBuilt : Bool
  lookupTable : List (Option Nat)
  tableSize : Nat
  backends : List BackendInfo
deriving DecidableEq

/-- Indices of the positive-weight backends, as collected by the
fallback path of `ChooseBackend`. -/
def maglevEligible (backends : List BackendInfo) : List Nat :=
  (List.range backends.length).filter (fun i => 0 < bweight backends i)

/-- `MaglevLoadBalancer::ChooseBackend`: with an unbuilt or empty table,
fall back to a pseudorandom pick (`Simulator::GetContext()` modulo the
eligible count, the context passed here as `ctx`) among positive-weight
backends, failing only when there is none; with a built table, index it
by `hash(to_string(l7)) % tableSize`, failing on the sentinel. -/
def MaglevLoadBalancer.ChooseBackend (hashL7 : Nat → Nat) (ctx : Nat)
    (st : MaglevState) (l7 : Nat) : Option Nat :=
  if !st.tableBuilt || st.lookupTable.isEmpty then
    match maglevEligible st.backends with
    | [] => none
    | es => some (baddr st.backends (es.getD (ctx % es.length) 0))
  else
    let idx := hashL7 l7 % st.tableSize
    match st.lookupTable.getD idx none with
    | none => none
    | some a => some a

/-! ### Proxy core

Translated from `LoadBalancerApp` (part_003).  Sockets are identified by
natural-number ids; `std::map` members become key-sorted association
lists; the runtime's virtual clock is the `now` field (never advanced by
the handlers themselves); `Socket::Send` results are supplied by the
environment as a stream `sendResult` indexed by a per-state counter
(negative = error, as the runtime contract allows); a socket has
errno ≠ OK exactly when it is in `erroredSockets` or has been closed.
The selector a `LoadBalancerApp` subclass provides is abstracted as the
`choose` / `recordLatency` / `notifySent` / `notifyFinished` functions of
a `ProxyEnv`, and the machine additionally counts every
`NotifyRequestSent` / `NotifyRequestFinished` call it makes.  Read
callbacks being temporarily disabled on partial sends only affects event
scheduling, which the environment already controls through the event
list, so those `SetRecvCallback` calls have no state counterpart. -/

def mapFind {κ α : Type} [DecidableEq κ] (k : κ) : List (κ × α) → Option α
  | [] => none
  | (k', v) :: t => if k = k' then some v else mapFind k t

/-- Insert-or-assign keeping keys sorted by the given strict order,
mirroring `std::map` iteration order. -/
def mapInsert {κ α : Type} [DecidableEq κ] (lt : κ → κ → Bool) (k : κ) (v : α) :
    List (κ × α) → List (κ × α)
  | [] => [(k, v)]
  | (k', v') :: t =>
    if lt k k' then (k, v) :: (k', v') :: t
    else if k = k' then (k, v) :: t
    else (k', v') :: mapInsert lt k v t

def mapErase {κ α : Type} [DecidableEq κ] (k : κ) (m : List (κ × α)) : List (κ × α) :=
  m.filter (fun p => p.1 ≠ k)

/-- `std::map::emplace`: insert only when the key is absent. -/
def mapEmplace {κ α : Type} [DecidableEq κ] (lt : κ → κ → Bool) (k : κ) (v : α)
    (m : List (κ × α)) : List (κ × α) :=
  if (mapFind k m).isSome then m else mapInsert lt k v m

/-- Key order of `m_requestSendTimes` (pairs of socket id and sequence
number, lexicographic). -/
def ltKey (a b : Nat × Nat) : Bool :=
  a.1 < b.1 || (a.1 = b.1 && a.2 < b.2)

/-- A request parked while its new backend socket connects
(`LoadBalancerApp::PendingRequest`; the stored client address is used
only for logging and is omitted). -/
structure PendingRequest where
  clientSocket : Nat
  requestPacket : List Nat
  targetBackendAddress : Nat
deriving DecidableEq

/-- Selector interface and transport environment of the proxy core. -/
structure ProxyEnv (σ : Type) where
  choose : σ → Nat → σ × Option Nat
  recordLatency : σ → Nat → Nat → σ
  notifySent : σ → Nat → σ
  notifyFinished : σ → Nat → σ
  sendResult : Nat → Int

/-- Proxy-core state: the state maps of `LoadBalancerApp` plus socket
status, fresh-id and send-stream counters, the virtual clock, the two
notification-call counters, and the selector state. -/
structure PxState (σ : Type) where
  clientRxBuffers : List (Nat × List Nat)
  backendRxBuffers : List (Nat × List Nat)
  clientBackendSockets : List (Nat × List (Nat × Nat))
  backendClientMap : List (Nat × Nat)
  pendingBackendRequests : List (Nat × PendingRequest)
  requestSendTimes : List ((Nat × Nat) × Nat)
  connectedPeers : List (Nat × Nat)
  erroredSockets : List Nat
  closedSockets : List Nat
  nextSocketId : Nat
  sendCounter : Nat
  now : Nat
  sentCalls : Nat
  finishedCalls : Nat
  selector : σ

/-- A socket's `GetErrno() == ERROR_NOTERROR` check. -/
def sockOk {σ : Type} (st : PxState σ) (s : Nat) : Bool :=
  !(st.erroredSockets.contains s) && !(st.closedSockets.contains s)

/-- Mark a socket closed (idempotent `Close`). -/
def markClosed {σ : Type} (st : PxState σ) (s : Nat) : PxState σ :=
  { st with closedSockets :=
      if st.closedSockets.contains s then st.closedSockets else s :: st.closedSockets }

/-- Mark a socket's errno as a (terminal) error. -/
def markErrored {σ : Type} (st : PxState σ) (s : Nat) : PxState σ :=
  { st with erroredSockets :=
      if st.erroredSockets.contains s then st.erroredSockets else s :: st.erroredSockets }

/-- One `NotifyRequestSent` call into the selector. -/
def pxNotifySent {σ : Type} (env : ProxyEnv σ) (st : PxState σ) (addr : Nat) :
    PxState σ :=
  { st with sentCalls := st.sentCalls + 1, selector := env.notifySent st.selector addr }

/-- One `NotifyRequestFinished` call into the selector. -/
def pxNotifyFinished {σ : Type} (env : ProxyEnv σ) (st : PxState σ) (addr : Nat) :
    PxState σ :=
  { st with finishedCalls := st.finishedCalls + 1,
            selector := env.notifyFinished st.selector addr }

/-- `LoadBalancerApp::CleanupBackendSocket`: resolve the backend address
(peer name, the owning client's per-address map, or the pending record),
remove the socket from every map, notify finish for each of its
outstanding send-time entries, and close it unless `mapEraseOnly`. -/
def LoadBalancerApp.CleanupBackendSocket {σ : Type} (env : ProxyEnv σ)
    (st : PxState σ) (b : Nat) (mapEraseOnly : Bool) : PxState σ :=
  let addr0 : Option Nat := mapFind b st.connectedPeers
  let clientOpt := mapFind b st.backendClientMap
  let st := { st with backendClientMap := mapErase b st.backendClientMap }
  let step1 : PxState σ × Option Nat :=
    match clientOpt with
    | none => (st, addr0)
    | some c =>
      match mapFind c st.clientBackendSockets with
      | none => (st, addr0)
      | some bmap =>
        match bmap.find? (fun p => p.2 = b) with
        | none => (st, addr0)
        | some entry =>
          let bmap' := bmap.eraseP (fun p => p.2 = b)
          let cbs' := mapInsert Nat.blt c bmap' st.clientBackendSockets
          ({ st with clientBackendSockets := cbs' },
           match addr0 with | some a => some a | none => some entry.1)
  let st := step1.1
  let addr1 := step1.2
  let st := { st with backendRxBuffers := mapErase b st.backendRxBuffers }
  let step2 : PxState σ × Option Nat :=
    match mapFind b st.pendingBackendRequests with
    | none => (st, addr1)
    | some p =>
      ({ st with pendingBackendRequests := mapErase b st.pendingBackendRequests },
       match addr1 with | some a => some a | none => some p.targetBackendAddress)
  let st := step2.1
  let addr2 := step2.2
  let outstanding := st.requestSendTimes.filter (fun e => e.1.1 = b)
  let st :=
    match addr2 with
    | some a => outstanding.foldl (fun acc _ => pxNotifyFinished env acc a) st
    | none => st
  let st := { st with requestSendTimes := st.requestSendTimes.filter (fun e => e.1.1 ≠ b) }
  if mapEraseOnly then st else markClosed st b

/-- `LoadBalancerApp::CleanupClient`: tear down every backend socket of
the client, erase its state, and notify finish for (and tear down) every
pending record it originated, then close the client socket. -/
def LoadBalancerApp.CleanupClient {σ : Type} (env : ProxyEnv σ)
    (st : PxState σ) (c : Nat) : PxState σ :=
  let bids := ((mapFind c st.clientBackendSockets).getD []).map Prod.snd
  let st := bids.foldl
    (fun acc bsock => LoadBalancerApp.CleanupBackendSocket env acc bsock false) st
  let st := { st with clientBackendSockets := mapErase c st.clientBackendSockets }
  let st := { st with clientRxBuffers := mapErase c st.clientRxBuffers }
  let pend := st.pendingBackendRequests.filter (fun p => p.2.clientSocket = c)
  let st := pend.foldl (fun acc pr =>
      let acc := pxNotifyFinished env acc pr.2.targetBackendAddress
      let acc := { acc with
        pendingBackendRequests := mapErase pr.1 acc.pendingBackendRequests }
      LoadBalancerApp.CleanupBackendSocket env acc pr.1 false) st
  markClosed st c

/-- `LoadBalancerApp::SendToBackend`: resolve the target address (peer
name or pending record); on a non-ready socket notify finish and clean
it up; otherwise send, and on a negative send result notify finish for
the target.  The stale send-time entry of a request whose send failed is
NOT erased here. -/
def LoadBalancerApp.SendToBackend {σ : Type} (env : ProxyEnv σ)
    (st : PxState σ) (b : Nat) (_pkt : List Nat) : PxState σ :=
  let target : Option Nat :=
    match mapFind b st.connectedPeers with
    | some a => some a
    | none => (mapFind b st.pendingBackendRequests).map PendingRequest.targetBackendAddress
  if !(sockOk st b) then
    let st := match target with | some a => pxNotifyFinished env st a | none => st
    LoadBalancerApp.CleanupBackendSocket env st b false
  else
    let res := env.sendResult st.sendCounter
    let st := { st with sendCounter := st.sendCounter + 1 }
    if res < 0 then
      match target with | some a => pxNotifyFinished env st a | none => st
    else st

/-- `LoadBalancerApp::SendToClient`: drop on an invalid client socket;
otherwise send (errors and partial sends only log / pause reads). -/
def LoadBalancerApp.SendToClient {σ : Type} (env : ProxyEnv σ)
    (st : PxState σ) (c : Nat) (_pkt : List Nat) : PxState σ :=
  if !(sockOk st c) then st
  else
    let _res := env.sendResult st.sendCounter
    { st with sendCounter := st.sendCounter + 1 }

/-- The new-connection branch of `AttemptForwardRequest`: create a fresh
backend socket, notify the selector that the request was sent, register
the pending record, and link the socket in both directional maps. -/
def attemptForwardNewConnection {σ : Type} (env : ProxyEnv σ)
    (st : PxState σ) (c addr : Nat) (pkt : List Nat) : PxState σ :=
  let b := st.nextSocketId
  let st := { st with nextSocketId := b + 1 }
  let st := pxNotifySent env st addr
  if (mapFind b st.pendingBackendRequests).isSome then
    let st := pxNotifyFinished env st addr
    markClosed st b
  else
    let pend' := mapInsert Nat.blt b ⟨c, pkt, addr⟩ st.pendingBackendRequests
    let st := { st with pendingBackendRequests := pend' }
    let st := { st with backendClientMap := mapInsert Nat.blt b c st.backendClientMap }
    let bmap := (mapFind c st.clientBackendSockets).getD []
    let cbs' := mapInsert Nat.blt c (mapInsert Nat.blt addr b bmap) st.clientBackendSockets
    { st with clientBackendSockets := cbs' }

/-- `LoadBalancerApp::AttemptForwardRequest`: ask the selector for a
backend; on success reuse the client's healthy connection to that
address (notify sent, record the send time, forward) or replace a stale
one and open a fresh connection. -/
def LoadBalancerApp.AttemptForwardRequest {σ : Type} (env : ProxyEnv σ)
    (st : PxState σ) (c : Nat) (pkt : List Nat) : PxState σ :=
  let hdr := RequestResponseHeader.Deserialize pkt
  let ch := env.choose st.selector hdr.l7Identifier
  let st := { st with selector := ch.1 }
  match ch.2 with
  | none => st
  | some addr =>
    match mapFind c st.clientBackendSockets with
    | none => st
    | some bmap =>
      match mapFind addr bmap with
      | some bsock =>
        if sockOk st bsock then
          let st := pxNotifySent env st addr
          let times' := mapInsert ltKey (bsock, hdr.seq) st.now st.requestSendTimes
          let st := { st with requestSendTimes := times' }
          LoadBalancerApp.SendToBackend env st bsock pkt
        else
          let st := LoadBalancerApp.CleanupBackendSocket env st bsock true
          let bmap' := mapErase addr ((mapFind c st.clientBackendSockets).getD [])
          let st := { st with clientBackendSockets := mapInsert Nat.blt c bmap' st.clientBackendSockets }
          attemptForwardNewConnection env st c addr pkt
      | none => attemptForwardNewConnection env st c addr pkt

/-- `LoadBalancerApp::HandleAccept`: initialize an empty rx buffer and
an empty per-client backend map. -/
def LoadBalancerApp.HandleAccept {σ : Type} (st : PxState σ) (c : Nat) : PxState σ :=
  let st := { st with clientRxBuffers := mapEmplace Nat.blt c [] st.clientRxBuffers }
  { st with clientBackendSockets := mapEmplace Nat.blt c [] st.clientBackendSockets }

/-- `LoadBalancerApp::HandleClientRead`: append the received bytes to
the client's rx buffer, drain whole messages, and forward each.
Forwarding never touches the client rx buffer, so draining first and
then forwarding matches the interleaved source loop.  A terminal errno
afterwards tears the client down. -/
def LoadBalancerApp.HandleClientRead {σ : Type} (env : ProxyEnv σ)
    (st : PxState σ) (c : Nat) (bytes : List Nat) : PxState σ :=
  match mapFind c st.clientRxBuffers with
  | none => st
  | some buf =>
    let r := reassemble (buf ++ bytes)
    let st := { st with clientRxBuffers := mapInsert Nat.blt c r.2 st.clientRxBuffers }
    let st := r.1.foldl (fun acc m => LoadBalancerApp.AttemptForwardRequest env acc c m) st
    if st.erroredSockets.contains c then LoadBalancerApp.CleanupClient env st c else st

/-- `LoadBalancerApp::HandleBackendConnectSuccess`: recover and erase
the pending record (the socket's peer is now resolvable); if the client
has vanished or errored, notify finish and drop the socket; otherwise
initialize the rx buffer, record the send time, and send the stored
request. -/
def LoadBalancerApp.HandleBackendConnectSuccess {σ : Type} (env : ProxyEnv σ)
    (st : PxState σ) (b : Nat) : PxState σ :=
  match mapFind b st.pendingBackendRequests with
  | none => LoadBalancerApp.CleanupBackendSocket env st b false
  | some p =>
    let st := { st with pendingBackendRequests := mapErase b st.pendingBackendRequests }
    let st := { st with connectedPeers := mapInsert Nat.blt b p.targetBackendAddress st.connectedPeers }
    if !(sockOk st p.clientSocket) then
      let st := pxNotifyFinished env st p.targetBackendAddress
      LoadBalancerApp.CleanupBackendSocket env st b false
    else
      let st := { st with backendRxBuffers := mapEmplace Nat.blt b [] st.backendRxBuffers }
      let hdr := RequestResponseHeader.Deserialize p.requestPacket
      let times' := mapInsert ltKey (b, hdr.seq) st.now st.requestSendTimes
      let st := { st with requestSendTimes := times' }
      LoadBalancerApp.SendToBackend env st b p.requestPacket

/-- `LoadBalancerApp::HandleBackendConnectFail`: notify finish for the
intended backend of the pending record (if any), erase it, and tear the
socket down. -/
def LoadBalancerApp.HandleBackendConnectFail {σ : Type} (env : ProxyEnv σ)
    (st : PxState σ) (b : Nat) : PxState σ :=
  let st := markErrored st b
  match mapFind b st.pendingBackendRequests with
  | some p =>
    let st := pxNotifyFinished env st p.targetBackendAddress
    let st := { st with pendingBackendRequests := mapErase b st.pendingBackendRequests }
    LoadBalancerApp.CleanupBackendSocket env st b false
  | none => LoadBalancerApp.CleanupBackendSocket env st b false

/-- Per-message body of the `HandleBackendRead` loop: compute the RTT
and record the latency when the send time is on file (erasing it),
notify finish whenever the peer address resolved, and relay the message
to the owning client. -/
def processBackendResponse {σ : Type} (env : ProxyEnv σ) (st : PxState σ)
    (b c : Nat) (resolved : Option Nat) (m : List Nat) : PxState σ :=
  let hdr := RequestResponseHeader.Deserialize m
  let key := (b, hdr.seq)
  let st :=
    match resolved, mapFind key st.requestSendTimes with
    | some a, some sendTime =>
      let st := { st with selector := env.recordLatency st.selector a (st.now - sendTime) }
      { st with requestSendTimes := mapErase key st.requestSendTimes }
    | _, _ => st
  let st := match resolved with | some a => pxNotifyFinished env st a | none => st
  LoadBalancerApp.SendToClient env st c m

/-- `LoadBalancerApp::HandleBackendRead`: guard for a missing client
association, an errored client or a missing rx buffer; then drain whole
responses and process each (processing never touches the backend rx
buffer, so draining first matches the interleaved source loop). -/
def LoadBalancerApp.HandleBackendRead {σ : Type} (env : ProxyEnv σ)
    (st : PxState σ) (b : Nat) (bytes : List Nat) : PxState σ :=
  let resolved := mapFind b st.connectedPeers
  match mapFind b st.backendClientMap with
  | none => st
  | some c =>
    if !(sockOk st c) then LoadBalancerApp.CleanupBackendSocket env st b false
    else
      match mapFind b st.backendRxBuffers with
      | none => LoadBalancerApp.CleanupBackendSocket env st b false
      | some buf =>
        let r := reassemble (buf ++ bytes)
        let st := { st with backendRxBuffers := mapInsert Nat.blt b r.2 st.backendRxBuffers }
        let st := r.1.foldl (fun acc m => processBackendResponse env acc b c resolved m) st
        if st.erroredSockets.contains b then
          LoadBalancerApp.CleanupBackendSocket env st b false
        else st

/-- `LoadBalancerApp::HandleBackendClose`: notify finish for every
outstanding send-time entry of the socket (when its address resolves),
erase them, and clean the socket up. -/
def LoadBalancerApp.HandleBackendClose {σ : Type} (env : ProxyEnv σ)
    (st : PxState σ) (b : Nat) : PxState σ :=
  let st :=
    match mapFind b st.connectedPeers with
    | some a =>
      let outstanding := st.requestSendTimes.filter (fun e => e.1.1 = b)
      let st := outstanding.foldl (fun acc _ => pxNotifyFinished env acc a) st
      { st with requestSendTimes := st.requestSendTimes.filter (fun e => e.1.1 ≠ b) }
    | none => st
  LoadBalancerApp.CleanupBackendSocket env st b false

/-- `LoadBalancerApp::HandleBackendError`: with a pending record, notify
finish for its target (the record itself is erased by the cleanup);
otherwise notify finish for every outstanding send-time entry; then
clean the socket up. -/
def LoadBalancerApp.HandleBackendError {σ : Type} (env : ProxyEnv σ)
    (st : PxState σ) (b : Nat) : PxState σ :=
  let st := markErrored st b
  let st :=
    match mapFind b st.pendingBackendRequests with
    | some p => pxNotifyFinished env st p.targetBackendAddress
    | none =>
      match mapFind b st.connectedPeers with
      | some a =>
        let outstanding := st.requestSendTimes.filter (fun e => e.1.1 = b)
        let st := outstanding.foldl (fun acc _ => pxNotifyFinished env acc a) st
        { st with requestSendTimes := st.requestSendTimes.filter (fun e => e.1.1 ≠ b) }
      | none => st
  LoadBalancerApp.CleanupBackendSocket env st b false

/-- `LoadBalancerApp::StopApplication`: clean up every client (which
cleans its backend sockets and pending records), then every remaining
pending backend socket, then clear the state maps. -/
def LoadBalancerApp.StopApplication {σ : Type} (env : ProxyEnv σ)
    (st : PxState σ) : PxState σ :=
  let clients := st.clientBackendSockets.map Prod.fst
  let st := clients.foldl (fun acc c => LoadBalancerApp.CleanupClient env acc c) st
  let st := { st with clientBackendSockets := [] }
  let pends := st.pendingBackendRequests.map Prod.fst
  let st := pends.foldl
    (fun acc b => LoadBalancerApp.CleanupBackendSocket env acc b false) st
  { st with pendingBackendRequests := [], clientRxBuffers := [],
            backendRxBuffers := [], backendClientMap := [], requestSendTimes := [] }

/-- Runtime callbacks delivered to the proxy core. -/
inductive ProxyEvent where
  | accept (c : Nat)
  | clientData (c : Nat) (bytes : List Nat)
  | clientClose (c : Nat)
  | clientError (c : Nat)
  | connectSuccess (b : Nat)
  | connectFail (b : Nat)
  | backendData (b : Nat) (bytes : List Nat)
  | backendClose (b : Nat)
  | backendError (b : Nat)
  | stop
deriving DecidableEq

/-- Dispatch one runtime event to its handler. -/
def proxyStep {σ : Type} (env : ProxyEnv σ) (st : PxState σ) : ProxyEvent → PxState σ
  | .accept c => LoadBalancerApp.HandleAccept st c
  | .clientData c bytes => LoadBalancerApp.HandleClientRead env st c bytes
  | .clientClose c => LoadBalancerApp.CleanupClient env st c
  | .clientError c => LoadBalancerApp.CleanupClient env (markErrored st c) c
  | .connectSuccess b => LoadBalancerApp.HandleBackendConnectSuccess env st b
  | .connectFail b => LoadBalancerApp.HandleBackendConnectFail env st b
  | .backendData b bytes => LoadBalancerApp.HandleBackendRead env st b bytes
  | .backendClose b => LoadBalancerApp.HandleBackendClose env st b
  | .backendError b => LoadBalancerApp.HandleBackendError env st b
  | .stop => LoadBalancerApp.StopApplication env st

/-- Run a sequence of events. -/
def proxyRun {σ : Type} (env : ProxyEnv σ) (st : PxState σ)
    (evs : List ProxyEvent) : PxState σ :=
  evs.foldl (proxyStep env) st

/-- Initial proxy state around a selector state. -/
def pxInit {σ : Type} (s0 : σ) : PxState σ :=
  { clientRxBuffers := [], backendRxBuffers := [], clientBackendSockets := []
    backendClientMap := [], pendingBackendRequests := [], requestSendTimes := []
    connectedPeers := [], erroredSockets := [], closedSockets := []
    nextSocketId := 0, sendCounter := 0, now := 0
    sentCalls := 0, finishedCalls := 0, selector := s0 }

/-! ### Concrete runs used as evidence

A single framed request (seq 1, timestamp 0, empty payload, l7 id 42)
and two short event traces: one in which the transport rejects the
forwarded request (`sendResult` negative), and one in which every send
succeeds. -/

/-- A serialized 24-byte request: seq 1, timestamp 0, payload 0,
l7 id 42. -/
def sampleRequest : List Nat :=
  RequestResponseHeader.Serialize { seq := 1, timestampNs := 0, payloadSize := 0, l7Identifier := 42 }

/-- Trivial selector environment that always chooses backend address 7;
every transport send fails (returns −1), as the runtime contract
permits. -/
def failingSendEnv : ProxyEnv Unit :=
  { choose := fun s _ => (s, some 7)
    recordLatency := fun s _ _ => s
    notifySent := fun s _ => s
    notifyFinished := fun s _ => s
    sendResult := fun _ => -1 }

/-- Accept a client, deliver one full request (which the proxy forwards,
opening backend socket 0), complete the backend connect (the send then
fails), and stop the proxy. -/
def failedSendTrace : List ProxyEvent :=
  [.accept 100, .clientData 100 sampleRequest, .connectSuccess 0, .stop]

/-- Final proxy state of the failed-send run. -/
def failedSendFinal : PxState Unit :=
  proxyRun failingSendEnv (pxInit ()) failedSendTrace

/-- The WRR selector as a proxy environment: `ChooseBackend` drives the
smooth-WRR loop and the notification methods are the selector's no-ops. -/
def wrrEnv : ProxyEnv WrrState :=
  { choose := fun s _ =>
      let r := WeightedRoundRobinLoadBalancer.ChooseBackend s
      (r.2, r.1)
    recordLatency := fun s _ _ => s
    notifySent := fun s a =>
      { s with backends := WeightedRoundRobinLoadBalancer.NotifyRequestSent s.backends a }
    notifyFinished := fun s a =>
      { s with backends := WeightedRoundRobinLoadBalancer.NotifyRequestFinished s.backends a }
    sendResult := fun _ => 1000 }

/-- WRR selector state over the single backend (address 7, weight 1). -/
def wrrSingleBackend : WrrState :=
  WeightedRoundRobinLoadBalancer.SetBackends [(7, 1)]
    { backends := [], currentIndex := 0, currentWeight := 0, maxWeight := 0, gcdWeight := 0 }

/-- WRR selector state, as established by `RecalculateWrrState`, over
two backends of weight 3·2^30 (address 1) and 2^31 (address 2): the
maximum weight 3·2^30 no longer fits in int32, so storing it into
`m_currentWeight` wraps. -/
def wrrWideState : WrrState :=
  WeightedRoundRobinLoadBalancer.RecalculateWrrState
    { backends := [{ address := 1, weight := 3 * 2 ^ 30, activeRequests := 0 },
                   { address := 2, weight := 2 ^ 31, activeRequests := 0 }],
      currentIndex := 0, currentWeight := 0, maxWeight := 0, gcdWeight := 0 }

/-- Accept a client and deliver one full request, which the proxy
forwards to the WRR-chosen backend; the request is then in flight
(connect completed, send succeeded, no response yet). -/
def wrrInFlightTrace : List ProxyEvent :=
  [.accept 100, .clientData 100 sampleRequest, .connectSuccess 0]

/-- Reachable proxy state with one request in flight under the WRR
selector. -/
def wrrInFlightFinal : PxState WrrState :=
  proxyRun wrrEnv (pxInit wrrSingleBackend) wrrInFlightTrace

/-! ## Theorems -/

/-- Reconstructing a 32-bit value from its big-endian bytes. -/
theorem beRead32_of_bytes (v : Nat) (hv : v < 2 ^ 32) :
    v / 2 ^ 24 % 256 * 2 ^ 24 + v / 2 ^ 16 % 256 * 2 ^ 16 +
      v / 2 ^ 8 % 256 * 2 ^ 8 + v % 256 = v := by
  omega

/-- Reconstructing a 64-bit value from its big-endian bytes. -/
theorem beRead64_of_bytes (v : Nat) (hv : v < 2 ^ 64) :
    v / 2 ^ 56 % 256 * 2 ^ 56 + v / 2 ^ 48 % 256 * 2 ^ 48 +
      v / 2 ^ 40 % 256 * 2 ^ 40 + v / 2 ^ 32 % 256 * 2 ^ 32 +
      v / 2 ^ 24 % 256 * 2 ^ 24 + v / 2 ^ 16 % 256 * 2 ^ 16 +
      v / 2 ^ 8 % 256 * 2 ^ 8 + v % 256 = v := by
  omega

/-- The int64 → uint64 → int64 round trip is the identity on the int64
range. -/
theorem u64ToI64_i64ToU64 (t : Int) (h1 : -(2 ^ 63) ≤ t) (h2 : t < 2 ^ 63) :
    u64ToI64 (i64ToU64 t) = t := by
  unfold u64ToI64 i64ToU64
  split <;> omega

/-- The uint64 value carried for a timestamp is below 2^64. -/
theorem i64ToU64_lt (t : Int) : i64ToU64 t < 2 ^ 64 := by
  unfold i64ToU64
  omega

/-- C6: For every RequestResponseHeader h, GetSerializedSize() equals
24, Serialize writes seq (32-bit), timestamp nanoseconds (64-bit),
payload_size (32-bit), and l7_id (64-bit) in that order in big-endian
byte order, and Deserialize applied to any 24-byte buffer totally
succeeds (the embedding `RequestResponseHeader.Deserialize` is a total
function reading exactly the 24-byte prefix) and is a left inverse of
Serialize: deserializing the serialization of h yields a header equal
to h in all four fields. -/
theorem header_serialize_deserialize_roundtrip (h : RequestResponseHeader)
    (hseq : h.seq < 2 ^ 32) (hts1 : -(2 ^ 63) ≤ h.timestampNs)
    (hts2 : h.timestampNs < 2 ^ 63)
    (hps : h.payloadSize < 2 ^ 32) (hl7 : h.l7Identifier < 2 ^ 64) :
    headerSerializedSize = 24 ∧
    (RequestResponseHeader.Serialize h).length = 24 ∧
    RequestResponseHeader.Serialize h =
      beBytes32 h.seq ++ beBytes64 (i64ToU64 h.timestampNs) ++
        beBytes32 h.payloadSize ++ beBytes64 h.l7Identifier ∧
    (∀ x ∈ RequestResponseHeader.Serialize h, x < 256) ∧
    RequestResponseHeader.Deserialize (RequestResponseHeader.Serialize h) = h := by
  refine ⟨rfl, ?_, rfl, ?_, ?_⟩
  · simp [RequestResponseHeader.Serialize, beBytes32, beBytes64]
  · intro x hx
    simp only [RequestResponseHeader.Serialize, beBytes32, beBytes64, List.cons_append,
      List.nil_append, List.mem_cons, List.not_mem_nil, or_false] at hx
    rcases hx with rfl|rfl|rfl|rfl|rfl|rfl|rfl|rfl|rfl|rfl|rfl|rfl|rfl|rfl|rfl|rfl|rfl|rfl|rfl|rfl|rfl|rfl|rfl|rfl <;> omega
  · obtain ⟨s, t, p, l⟩ := h
    simp only [RequestResponseHeader.Serialize, RequestResponseHeader.Deserialize,
      beBytes32, beBytes64, beRead32, beRead64, byteAt, List.cons_append, List.nil_append,
      List.getD_cons_zero, List.getD_cons_succ, RequestResponseHeader.mk.injEq] at *
    refine ⟨beRead32_of_bytes s hseq, ?_, beRead32_of_bytes p hps, beRead64_of_bytes l hl7⟩
    rw [beRead64_of_bytes _ (i64ToU64_lt t)]
    exact u64ToI64_i64ToU64 t hts1 hts2

/-- Witness for the header round trip at seq 1, timestamp −5 ns,
payload 3, l7 id 42. -/
theorem header_serialize_deserialize_roundtrip_witness :
    headerSerializedSize = 24 ∧
    (RequestResponseHeader.Serialize ⟨1, -5, 3, 42⟩).length = 24 ∧
    RequestResponseHeader.Serialize ⟨1, -5, 3, 42⟩ =
      beBytes32 1 ++ beBytes64 (i64ToU64 (-5)) ++ beBytes32 3 ++ beBytes64 42 ∧
    (∀ x ∈ RequestResponseHeader.Serialize ⟨1, -5, 3, 42⟩, x < 256) ∧
    RequestResponseHeader.Deserialize
      (RequestResponseHeader.Serialize ⟨1, -5, 3, 42⟩) = ⟨1, -5, 3, 42⟩ :=
  header_serialize_deserialize_roundtrip ⟨1, -5, 3, 42⟩
    (by decide) (by decide) (by decide) (by decide) (by decide)

/-- C1 (code bug): the matching of NotifyRequestSent and
NotifyRequestFinished calls fails on the path where a forwarded
request's transport send returns an error: `SendToBackend` then calls
`NotifyRequestFinished` but leaves the `m_requestSendTimes` entry, and
the later cleanup of the backend socket notifies finish for that stale
entry a second time.  Executing the embedded proxy core on the trace
(accept, one full request forwarded, backend connect success with the
send failing, shutdown) yields one NotifyRequestSent call and two
NotifyRequestFinished calls, contradicting the claimed exact matching. -/
theorem proxyCore_send_fail_double_finish :
    failedSendFinal.sentCalls = 1 ∧ failedSendFinal.finishedCalls = 2 ∧
    failedSendFinal.sentCalls ≠ failedSendFinal.finishedCalls := by
  refine ⟨rfl, rfl, by decide⟩

/-- C2 (code bug): `PeakEwmaLoadBalancer::SetBackends` clears the whole
metric map and emplaces a fresh metric for every backend of the new
list, so an address that already had a metric (here cost 5 ns, 2
pending, stamp 0) ends up with the freshly constructed metric (cost 0,
pending 0, stamp = now) instead of its preserved state — contradicting
the in-code comment "Remove metrics for any backends that are no longer
present" and `AddBackend`'s explicit preservation of existing metrics. -/
theorem peakEwma_setBackends_discards_metrics :
    (PeakEwmaLoadBalancer.SetBackends 10 10 [(7, 1)]
        [(7, { stampNs := 0, pending := 2, costNs := 5, decayTimeNs := 10,
               penaltyNs := 1000000000 })]).2 = [(7, EwmaMetric.fresh 10 10)] ∧
    (EwmaMetric.fresh 10 10).pending ≠ 2 ∧
    (EwmaMetric.fresh 10 10).stampNs ≠ 0 ∧
    (EwmaMetric.fresh 10 10).costNs ≠ (5 : ℝ) := by
  refine ⟨rfl, by decide, by decide, by norm_num [EwmaMetric.fresh]⟩

/-- C8 (code bug): the Maglev configuration permits table_size = 1
(checker minimum 1), while the build guard only rejects table_size = 0;
with a positive-weight backend the build therefore reaches the skip
computation with divisor table_size − 1 = 0 — in C++ `hash % 0`, a
division by zero — so the whole rebuild has no defined result at the
permitted minimum, whatever the hash functions; for every larger table
size the skip divisor is nonzero and the computation is defined. -/
theorem maglev_skip_divisor_zero_at_minimum_table_size :
    maglevTableSizePermitted 1 = true ∧
    maglevSkipDivisor 1 = 0 ∧
    (∀ hashAddr hashSkip : Nat → Nat,
      MaglevLoadBalancer.BuildTable hashAddr hashSkip 1
        [{ address := 5, weight := 1, activeRequests := 0 }] = none) ∧
    (∀ hashSkip : Nat → Nat, ∀ t addr : Nat,
      maglevSkip hashSkip (t + 2) addr ≠ none) := by
  refine ⟨rfl, rfl, ?_, ?_⟩
  · intro hashAddr hashSkip
    simp only [MaglevLoadBalancer.BuildTable, maglevMkEntries, maglevSkip, maglevSkipDivisor]
    rfl
  · intro hashSkip t addr
    simp [maglevSkip, maglevSkipDivisor]

/-- C4 (counterexample): under the WRR selector the reachable proxy
state after one request has been forwarded (NotifyRequestSent called
once, no finish yet) has one request in flight but registry
active_requests summing to 0, because the WRR notification methods are
no-ops — so the claimed equality fails for this selector variant. -/
theorem sumActive_inflight_wrr_cex :
    sumActive wrrInFlightFinal.selector.backends = 0 ∧
    wrrInFlightFinal.sentCalls - wrrInFlightFinal.finishedCalls = 1 ∧
    sumActive wrrInFlightFinal.selector.backends ≠
      wrrInFlightFinal.sentCalls - wrrInFlightFinal.finishedCalls := by
  refine ⟨rfl, rfl, ?_⟩
  decide

/-- C10: `LoadBalancerApp::AddBackend` on an address already in the
registry updates only that entry's weight: the first entry k matching
the address keeps its position and active count, the result is exactly
`reg.set k` of the reweighted entry (so every other entry is unchanged),
and the length is unchanged (no duplicate is created). -/
theorem addBackend_existing_updates_weight_only (reg : List BackendInfo) (addr w : Nat)
    (hmem : ∃ b ∈ reg, b.address = addr) :
    ∃ k, k < reg.length ∧ baddr reg k = addr ∧ (∀ j, j < k → baddr reg j ≠ addr) ∧
      LoadBalancerApp.AddBackend reg addr w =
        reg.set k { address := addr, weight := w, activeRequests := activeOf reg addr } ∧
      (LoadBalancerApp.AddBackend reg addr w).length = reg.length := by
  induction reg with
  | nil => simp at hmem
  | cons b t ih =>
    by_cases hb : b.address = addr
    · refine ⟨0, by simp, ?_, ?_, ?_, ?_⟩
      · simp [baddr, hb]
      · intro j hj; omega
      · simp only [LoadBalancerApp.AddBackend, if_pos hb, List.set]
        have : activeOf (b :: t) addr = b.activeRequests := by
          simp [activeOf, List.find?, hb]
        rw [this]
        congr 1
        cases b
        simp_all
      · simp [LoadBalancerApp.AddBackend, if_pos hb]
    · obtain ⟨b', hb', hba⟩ := hmem
      rcases List.mem_cons.mp hb' with rfl|hbt
      · exact absurd hba hb
      · obtain ⟨k, hk, hka, hkfirst, hkeq, hklen⟩ := ih ⟨b', hbt, hba⟩
        refine ⟨k + 1, by simpa using Nat.succ_lt_succ hk, ?_, ?_, ?_, ?_⟩
        · simpa [baddr] using hka
        · intro j hj
          cases j with
          | zero => simpa [baddr] using hb
          | succ j' => simpa [baddr] using hkfirst j' (by omega)
        · have hact : activeOf (b :: t) addr = activeOf t addr := by
            simp [activeOf, List.find?, hb]
          simp only [LoadBalancerApp.AddBackend, if_neg hb, List.set, hact]
          rw [hkeq]
        · simp [LoadBalancerApp.AddBackend, if_neg hb, hklen]

/-- Witness for the AddBackend frame property on a registry of two
entries, re-adding address 7 with weight 9. -/
theorem addBackend_existing_updates_weight_only_witness :
    ∃ k, k < ([⟨1, 2, 3⟩, ⟨7, 5, 4⟩] : List BackendInfo).length ∧
      baddr [⟨1, 2, 3⟩, ⟨7, 5, 4⟩] k = 7 ∧
      (∀ j, j < k → baddr [⟨1, 2, 3⟩, ⟨7, 5, 4⟩] j ≠ 7) ∧
      LoadBalancerApp.AddBackend [⟨1, 2, 3⟩, ⟨7, 5, 4⟩] 7 9 =
        ([⟨1, 2, 3⟩, ⟨7, 5, 4⟩] : List BackendInfo).set k
          { address := 7, weight := 9,
            activeRequests := activeOf [⟨1, 2, 3⟩, ⟨7, 5, 4⟩] 7 } ∧
      (LoadBalancerApp.AddBackend [⟨1, 2, 3⟩, ⟨7, 5, 4⟩] 7 9).length =
        ([⟨1, 2, 3⟩, ⟨7, 5, 4⟩] : List BackendInfo).length :=
  addBackend_existing_updates_weight_only [⟨1, 2, 3⟩, ⟨7, 5, 4⟩] 7 9
    ⟨⟨7, 5, 4⟩, by decide, rfl⟩

/-- C5 (code bug): the reassembly loop computes
`uint32_t expectedTotalSize = headerSize + expectedPayloadSize`, a sum
that wraps modulo 2^32.  On a 24-byte buffer whose header announces
payload_size = 2^32 − 1, the announced total 24 + (2^32 − 1) exceeds
the buffered bytes, so the claimed loop stops and waits for more data;
the code's wrapped total is 23, so it instead consumes 23 bytes and
hands them to processing as one bogus message — shorter than a header,
not the S + payload_size bytes of a whole message the claim
requires. -/
theorem reassembly_uint32_total_wrap_bogus_message :
    wrapHeaderBuf.length = headerSerializedSize ∧
    (RequestResponseHeader.Deserialize wrapHeaderBuf).payloadSize = 2 ^ 32 - 1 ∧
    wrapHeaderBuf.length <
      headerSerializedSize + (RequestResponseHeader.Deserialize wrapHeaderBuf).payloadSize ∧
    (reassemble wrapHeaderBuf).1 = [wrapHeaderBuf.take 23] ∧
    (reassemble wrapHeaderBuf).2 = wrapHeaderBuf.drop 23 ∧
    (wrapHeaderBuf.take 23).length ≠
      headerSerializedSize +
        (RequestResponseHeader.Deserialize (wrapHeaderBuf.take 23)).payloadSize ∧
    (reassemble wrapHeaderBuf).2 ≠ wrapHeaderBuf := by
  decide

/-- C3 (counterexample): the claim states the peak reset fires whenever
`rtt_ns > cost` and `cost > 0`, but `EwmaMetric::Observe` compares the
cost against the machine epsilon of double: at cost 2^(-53) (positive
but at most epsilon), stamp = now = 0 and rtt = 1 ns, the claim's
version resets the cost and yields 0 while the code keeps cost
2^(-53). -/
theorem ewma_observe_peak_reset_cex :
    (ewmaObserveSpec 0 1
        { stampNs := 0, pending := 0, costNs := (2:ℝ)^(-(53:ℤ)), decayTimeNs := 10,
          penaltyNs := 1000000000 }).costNs ≠
    (EwmaMetric.Observe 0 1
        { stampNs := 0, pending := 0, costNs := (2:ℝ)^(-(53:ℤ)), decayTimeNs := 10,
          penaltyNs := 1000000000 }).costNs := by
  have hp : (0:ℝ) < (2:ℝ)^(-(53:ℤ)) := by positivity
  have h1 : (2:ℝ)^(-(53:ℤ)) < 1 := by
    have := zpow_lt_zpow_right₀ (a := (2:ℝ)) (by norm_num)
      (show (-(53:ℤ)) < 0 by norm_num)
    simpa using this
  have hlt : (2:ℝ)^(-(53:ℤ)) < (2:ℝ)^(-(52:ℤ)) :=
    zpow_lt_zpow_right₀ (by norm_num) (by norm_num)
  simp only [ewmaObserveSpec, EwmaMetric.Observe, dblEpsilon]
  rw [if_pos (by constructor <;> simp <;> linarith)]
  rw [if_neg (by rintro ⟨-, hbad⟩; linarith)]
  simp only [sub_zero, max_self, Int.cast_zero, neg_zero, zero_div, Real.exp_zero,
    mul_one, sub_self, mul_zero, zero_mul, zero_add, Int.cast_one, one_mul, add_zero]
  intro hbad
  linarith

/-- C3 (amended): `EwmaMetric::Observe` computes dt = max(0, now −
last_update), sets last_update = now, resets cost to 0 when rtt_ns >
cost and cost > ε (ε the machine epsilon of double, 2^(-52)), then sets
cost = cost·w + rtt·(1 − w) with w = exp(−dt/decay); and under monotone
time (last_update ≤ now) `EwmaMetric::GetLoad` equals the claim's
description: decay the cost by exp(−dt/decay), update last_update, then
return penalty + pending when the cost is approximately zero (at most ε)
and pending > 0, else cost·(pending + 1), clamped at 0. -/
theorem ewma_observe_getLoad_amended (m : EwmaMetric) (now rtt : Int)
    (h : m.stampNs ≤ now) :
    EwmaMetric.Observe now rtt m = ewmaObserveAmended now rtt m ∧
    EwmaMetric.GetLoad now m = ewmaGetLoadSpec now m := by
  constructor
  · rfl
  · obtain ⟨st, pd, co, de, pe⟩ := m
    have h' : st ≤ now := h
    simp only [EwmaMetric.GetLoad, ewmaGetLoadSpec]
    by_cases h0 : (0:Int) < max 0 (now - st)
    · rw [if_pos h0]
    · rw [if_neg h0]
      have h2 : now - st ≤ max 0 (now - st) := le_max_right _ _
      have h4 : max (0:Int) (now - st) ≤ 0 := le_of_not_lt h0
      have hst : now = st := by omega
      subst hst
      simp only [sub_self, max_self, Int.cast_zero, neg_zero, zero_div, Real.exp_zero, mul_one]

/-- Witness for the amended EwmaMetric description at a metric with
stamp 0, 1 pending, cost 3 ns, queried at now = 5 with rtt = 4. -/
theorem ewma_observe_getLoad_amended_witness :
    EwmaMetric.Observe 5 4
        { stampNs := 0, pending := 1, costNs := 3, decayTimeNs := 10,
          penaltyNs := 1000000000 } =
      ewmaObserveAmended 5 4
        { stampNs := 0, pending := 1, costNs := 3, decayTimeNs := 10,
          penaltyNs := 1000000000 } ∧
    EwmaMetric.GetLoad 5
        { stampNs := 0, pending := 1, costNs := 3, decayTimeNs := 10,
          penaltyNs := 1000000000 } =
      ewmaGetLoadSpec 5
        { stampNs := 0, pending := 1, costNs := 3, decayTimeNs := 10,
          penaltyNs := 1000000000 } :=
  ewma_observe_getLoad_amended
    { stampNs := 0, pending := 1, costNs := 3, decayTimeNs := 10,
      penaltyNs := 1000000000 } 5 4 (by decide)

/-- C9: If the Maglev table-filling iteration exceeds 2·tableSize passes
without claiming every slot, the build loop aborts (the table is
invalidated and left unbuilt, `BuildTable` mapping the aborted outcome
to built = false with a cleared table); and every ChooseBackend call
with an unbuilt table falls back to the pseudorandom pick (context
modulo the eligible count) among the positive-weight backends, returning
none exactly when no positive-weight backend exists, and any returned
address belongs to a positive-weight backend. -/
theorem maglev_abort_invalidates_and_fallback :
    (∀ t maxW fuel pass entries table filled es' table' filled',
        filled < t →
        maglevDoPass t maxW pass entries table filled = some (es', table', filled') →
        filled' < t →
        2 * t < pass + 1 →
        maglevBuildLoop t maxW (fuel + 1) pass entries table filled =
          MaglevBuildResult.aborted) ∧
    (∀ hashL7 ctx st l7, st.tableBuilt = false →
        ((MaglevLoadBalancer.ChooseBackend hashL7 ctx st l7 = none ↔
            maglevEligible st.backends = []) ∧
         (maglevEligible st.backends ≠ [] →
            MaglevLoadBalancer.ChooseBackend hashL7 ctx st l7 =
              some (baddr st.backends
                ((maglevEligible st.backends).getD
                  (ctx % (maglevEligible st.backends).length) 0))) ∧
         (∀ a, MaglevLoadBalancer.ChooseBackend hashL7 ctx st l7 = some a →
            ∃ i, i < st.backends.length ∧ 0 < bweight st.backends i ∧
              a = baddr st.backends i))) := by
  constructor
  · intro t maxW fuel pass entries table filled es' table' filled' hf hdo hf' hp
    simp only [maglevBuildLoop, if_neg (not_le.mpr hf), hdo, if_neg (not_le.mpr hf'),
      if_pos hp]
  · intro hashL7 ctx st l7 hb
    have hcond : (!st.tableBuilt || st.lookupTable.isEmpty) = true := by
      rw [hb]; rfl
    have hch : MaglevLoadBalancer.ChooseBackend hashL7 ctx st l7 =
        (match maglevEligible st.backends with
         | [] => none
         | es => some (baddr st.backends (es.getD (ctx % es.length) 0))) := by
      simp only [MaglevLoadBalancer.ChooseBackend, if_pos hcond]
    cases hel : maglevEligible st.backends with
    | nil =>
      rw [hel] at hch
      refine ⟨by simp [hch], fun hne => absurd rfl hne, ?_⟩
      intro a ha
      rw [hch] at ha
      simp at ha
    | cons x xs =>
      rw [hel] at hch
      have hlen : ctx % (x :: xs).length < (x :: xs).length := Nat.mod_lt _ (by simp)
      have hmem : (x :: xs).getD (ctx % (x :: xs).length) 0 ∈ maglevEligible st.backends := by
        rw [hel, List.getD_eq_getElem?_getD, List.getElem?_eq_getElem hlen]
        exact List.getElem_mem hlen
      simp only [maglevEligible, List.mem_filter, List.mem_range, decide_eq_true_eq] at hmem
      refine ⟨by simp [hch], fun _ => by rw [hch], ?_⟩
      intro a ha
      rw [hch] at ha
      simp only [Option.some.injEq] at ha
      exact ⟨(x :: xs).getD (ctx % (x :: xs).length) 0, hmem.1, hmem.2, ha.symm⟩

/-- Witness for the Maglev abort and fallback: a loop state at pass 6 of
a size-3 table aborts, and an unbuilt-table state with one
positive-weight backend (address 5) falls back to choosing it. -/
theorem maglev_abort_invalidates_and_fallback_witness :
    maglevBuildLoop 3 1 1 6 [] (List.replicate 3 none) 0 =
      MaglevBuildResult.aborted ∧
    MaglevLoadBalancer.ChooseBackend (fun x => x) 0
      { tableBuilt := false, lookupTable := [], tableSize := 3,
        backends := [⟨5, 1, 0⟩] } 0 = some 5 := by
  constructor
  · exact maglev_abort_invalidates_and_fallback.1 3 1 0 6 [] (List.replicate 3 none) 0
      [] (List.replicate 3 none) 0 (by decide) rfl (by decide) (by decide)
  · have h := (maglev_abort_invalidates_and_fallback.2 (fun x => x) 0
      { tableBuilt := false, lookupTable := [], tableSize := 3,
        backends := [⟨5, 1, 0⟩] } 0 rfl).2.1 (by decide)
    rw [h]
    decide

theorem lr_sent_activeOf_ne (reg : List BackendInfo) (a b : Nat) (h : b ≠ a) :
    activeOf (LeastRequestLoadBalancer.NotifyRequestSent reg b) a = activeOf reg a := by
  have h2 : ¬ a = b := fun hx => h hx.symm
  induction reg with
  | nil => rfl
  | cons c t ih =>
    by_cases hc : c.address = b
    · have hca : ¬ (c.address = a) := by omega
      simp [LeastRequestLoadBalancer.NotifyRequestSent, hc, activeOf, List.find?, hca, h, h2]
    · by_cases hca : c.address = a
      · simp [LeastRequestLoadBalancer.NotifyRequestSent, hc, activeOf, List.find?, hca, h, h2]
      · simp only [LeastRequestLoadBalancer.NotifyRequestSent, if_neg hc]
        simp only [activeOf, List.find?] at ih ⊢
        simp [hca, ih]

theorem lr_sent_activeOf_eq (reg : List BackendInfo) (a : Nat)
    (h : a ∈ reg.map BackendInfo.address) :
    activeOf (LeastRequestLoadBalancer.NotifyRequestSent reg a) a = activeOf reg a + 1 := by
  induction reg with
  | nil => simp at h
  | cons c t ih =>
    by_cases hc : c.address = a
    · simp [LeastRequestLoadBalancer.NotifyRequestSent, hc, activeOf, List.find?]
    · simp only [List.map_cons, List.mem_cons] at h
      rcases h with h|h
      · exact absurd h.symm hc
      · simp only [LeastRequestLoadBalancer.NotifyRequestSent, if_neg hc]
        simp only [activeOf, List.find?] at ih ⊢
        simp [hc, ih h]

theorem lr_fin_activeOf_ne (reg : List BackendInfo) (a b : Nat) (h : b ≠ a) :
    activeOf (LeastRequestLoadBalancer.NotifyRequestFinished reg b) a = activeOf reg a := by
  have h2 : ¬ a = b := fun hx => h hx.symm
  induction reg with
  | nil => rfl
  | cons c t ih =>
    by_cases hc : c.address = b
    · have hca : ¬ (c.address = a) := by omega
      simp [LeastRequestLoadBalancer.NotifyRequestFinished, hc, activeOf, List.find?, hca, h, h2]
    · by_cases hca : c.address = a
      · simp [LeastRequestLoadBalancer.NotifyRequestFinished, hc, activeOf, List.find?, hca, h, h2]
      · simp only [LeastRequestLoadBalancer.NotifyRequestFinished, if_neg hc]
        simp only [activeOf, List.find?] at ih ⊢
        simp [hca, ih]

theorem lr_fin_activeOf_eq (reg : List BackendInfo) (a : Nat)
    (h : 0 < activeOf reg a) :
    activeOf (LeastRequestLoadBalancer.NotifyRequestFinished reg a) a + 1 = activeOf reg a := by
  induction reg with
  | nil => simp [activeOf] at h
  | cons c t ih =>
    by_cases hc : c.address = a
    · have hact : 0 < c.activeRequests := by
        simpa [activeOf, List.find?, hc] using h
      simp [LeastRequestLoadBalancer.NotifyRequestFinished, hc, activeOf, List.find?, hact]
      omega
    · have ht : 0 < activeOf t a := by
        simpa [activeOf, List.find?, hc] using h
      simp only [LeastRequestLoadBalancer.NotifyRequestFinished, if_neg hc]
      simp only [activeOf, List.find?] at ih ⊢
      simp [hc, ih ht]

theorem lr_sent_sum (reg : List BackendInfo) (a : Nat)
    (h : a ∈ reg.map BackendInfo.address) :
    sumActive (LeastRequestLoadBalancer.NotifyRequestSent reg a) = sumActive reg + 1 := by
  induction reg with
  | nil => simp at h
  | cons c t ih =>
    by_cases hc : c.address = a
    · simp [LeastRequestLoadBalancer.NotifyRequestSent, hc, sumActive]
      omega
    · simp only [List.map_cons, List.mem_cons] at h
      rcases h with h|h
      · exact absurd h.symm hc
      · simp only [LeastRequestLoadBalancer.NotifyRequestSent, if_neg hc]
        simp only [sumActive, List.map_cons, List.sum_cons] at ih ⊢
        rw [ih h]
        omega

theorem lr_fin_sum (reg : List BackendInfo) (a : Nat)
    (h : 0 < activeOf reg a) :
    sumActive (LeastRequestLoadBalancer.NotifyRequestFinished reg a) + 1 = sumActive reg := by
  induction reg with
  | nil => simp [activeOf] at h
  | cons c t ih =>
    by_cases hc : c.address = a
    · have hact : 0 < c.activeRequests := by
        simpa [activeOf, List.find?, hc] using h
      simp [LeastRequestLoadBalancer.NotifyRequestFinished, hc, sumActive, hact]
      omega
    · have ht : 0 < activeOf t a := by
        simpa [activeOf, List.find?, hc] using h
      simp only [LeastRequestLoadBalancer.NotifyRequestFinished, if_neg hc]
      simp only [sumActive, List.map_cons, List.sum_cons] at ih ⊢
      rw [← ih ht]
      omega

theorem lr_sent_addresses (reg : List BackendInfo) (b : Nat) :
    (LeastRequestLoadBalancer.NotifyRequestSent reg b).map BackendInfo.address =
      reg.map BackendInfo.address := by
  induction reg with
  | nil => rfl
  | cons c t ih =>
    by_cases h : c.address = b
    · simp [LeastRequestLoadBalancer.NotifyRequestSent, h]
    · simp [LeastRequestLoadBalancer.NotifyRequestSent, h, ih]

theorem lr_fin_addresses (reg : List BackendInfo) (b : Nat) :
    (LeastRequestLoadBalancer.NotifyRequestFinished reg b).map BackendInfo.address =
      reg.map BackendInfo.address := by
  induction reg with
  | nil => rfl
  | cons c t ih =>
    by_cases h : c.address = b
    · simp [LeastRequestLoadBalancer.NotifyRequestFinished, h]
    · simp [LeastRequestLoadBalancer.NotifyRequestFinished, h, ih]

theorem lr_run_sum (evs : List NotifyEvent) : ∀ reg : List BackendInfo,
    (∀ e ∈ evs, e.addr ∈ reg.map BackendInfo.address) →
    (∀ a, ∀ k ≤ evs.length,
       finCount (evs.take k) a ≤ activeOf reg a + sentCount (evs.take k) a) →
    sumActive (lrRun reg evs) + totalFin evs = sumActive reg + totalSent evs := by
  induction evs with
  | nil => intro reg _ _; simp [lrRun, totalFin, totalSent]
  | cons ev rest ih =>
    intro reg hmem hbal
    have hrun : lrRun reg (ev :: rest) = lrRun (lrApply reg ev) rest := rfl
    cases ev with
    | sent b =>
      have hb : b ∈ reg.map BackendInfo.address := by
        simpa [NotifyEvent.addr] using hmem (.sent b) (by simp)
      have hsum : sumActive (lrApply reg (.sent b)) = sumActive reg + 1 :=
        lr_sent_sum reg b hb
      have hmem' : ∀ e ∈ rest, e.addr ∈ (lrApply reg (.sent b)).map BackendInfo.address := by
        intro e he
        rw [show lrApply reg (.sent b) = LeastRequestLoadBalancer.NotifyRequestSent reg b from rfl,
          lr_sent_addresses]
        exact hmem e (by simp [he])
      have hbal' : ∀ a, ∀ k ≤ rest.length,
          finCount (rest.take k) a ≤
            activeOf (lrApply reg (.sent b)) a + sentCount (rest.take k) a := by
        intro a k hk
        have h1 := hbal a (k + 1) (by simpa using Nat.succ_le_succ hk)
        rw [List.take_succ_cons] at h1
        by_cases hba : b = a
        · subst hba
          have h2 : activeOf (lrApply reg (.sent b)) b = activeOf reg b + 1 :=
            lr_sent_activeOf_eq reg b hb
          simp only [finCount, sentCount, List.countP_cons] at h1 ⊢
          simp at h1
          omega
        · have h2 : activeOf (lrApply reg (.sent b)) a = activeOf reg a :=
            lr_sent_activeOf_ne reg a b hba
          simp only [finCount, sentCount, List.countP_cons] at h1 ⊢
          simp [hba] at h1
          omega
      have hih := ih (lrApply reg (.sent b)) hmem' hbal'
      rw [hrun] at *
      simp only [totalFin, totalSent, List.countP_cons] at *
      simp at *
      omega
    | finished b =>
      have hpos : 0 < activeOf reg b := by
        have h1 := hbal b 1 (by simp)
        simp [finCount, sentCount, List.countP_cons, List.take_succ_cons] at h1
        omega
      have hsum : sumActive (lrApply reg (.finished b)) + 1 = sumActive reg :=
        lr_fin_sum reg b hpos
      have hmem' : ∀ e ∈ rest, e.addr ∈ (lrApply reg (.finished b)).map BackendInfo.address := by
        intro e he
        rw [show lrApply reg (.finished b) =
            LeastRequestLoadBalancer.NotifyRequestFinished reg b from rfl, lr_fin_addresses]
        exact hmem e (by simp [he])
      have hbal' : ∀ a, ∀ k ≤ rest.length,
          finCount (rest.take k) a ≤
            activeOf (lrApply reg (.finished b)) a + sentCount (rest.take k) a := by
        intro a k hk
        have h1 := hbal a (k + 1) (by simpa using Nat.succ_le_succ hk)
        rw [List.take_succ_cons] at h1
        by_cases hba : b = a
        · subst hba
          have h2 : activeOf (lrApply reg (.finished b)) b + 1 = activeOf reg b :=
            lr_fin_activeOf_eq reg b hpos
          simp only [finCount, sentCount, List.countP_cons] at h1 ⊢
          simp at h1
          omega
        · have h2 : activeOf (lrApply reg (.finished b)) a = activeOf reg a :=
            lr_fin_activeOf_ne reg a b hba
          simp only [finCount, sentCount, List.countP_cons] at h1 ⊢
          simp [hba] at h1
          omega
      have hih := ih (lrApply reg (.finished b)) hmem' hbal'
      rw [hrun] at *
      simp only [totalFin, totalSent, List.countP_cons] at *
      simp at *
      omega

theorem peak_sent_pending (metrics : List (Nat × EwmaMetric)) (a : Nat) (m : EwmaMetric)
    (h : mapFind a metrics = some m) :
    mapFind a (PeakEwmaLoadBalancer.NotifyRequestSent metrics a) =
      some m.IncrementPending := by
  induction metrics with
  | nil => simp [mapFind] at h
  | cons p t ih =>
    obtain ⟨k, v⟩ := p
    by_cases hk : k = a
    · subst hk
      simp [mapFind] at h
      simp [PeakEwmaLoadBalancer.NotifyRequestSent, mapFind, h]
    · have hk2 : ¬ a = k := fun hx => hk hx.symm
      simp only [mapFind, if_neg hk2] at h
      simp only [PeakEwmaLoadBalancer.NotifyRequestSent, if_neg hk, mapFind, if_neg hk2]
      exact ih h

theorem peak_fin_pending (metrics : List (Nat × EwmaMetric)) (a : Nat) (m : EwmaMetric)
    (h : mapFind a metrics = some m) :
    mapFind a (PeakEwmaLoadBalancer.NotifyRequestFinished metrics a) =
      some m.DecrementPending := by
  induction metrics with
  | nil => simp [mapFind] at h
  | cons p t ih =>
    obtain ⟨k, v⟩ := p
    by_cases hk : k = a
    · subst hk
      simp [mapFind] at h
      simp [PeakEwmaLoadBalancer.NotifyRequestFinished, mapFind, h]
    · have hk2 : ¬ a = k := fun hx => hk hx.symm
      simp only [mapFind, if_neg hk2] at h
      simp only [PeakEwmaLoadBalancer.NotifyRequestFinished, if_neg hk, mapFind, if_neg hk2]
      exact ih h

/-- C4 (amended): only the Least-Request selector maintains the
registry's active_requests.  The WRR, Random, RingHash and Maglev
notification methods are no-ops on the registry; Peak-EWMA tracks
in-flight counts in its metric map's pending field (incremented and
decremented there) and by construction never touches the registry; and
for Least-Request, after any sequence of notify events whose addresses
are registered and in which finishes never outrun sends plus the initial
count per address, the sum of active_requests changes by exactly sent
minus finished — so starting from an all-zero registry it equals the
number of requests in flight. -/
theorem notify_bookkeeping_amended :
    (∀ reg a, WeightedRoundRobinLoadBalancer.NotifyRequestSent reg a = reg ∧
              WeightedRoundRobinLoadBalancer.NotifyRequestFinished reg a = reg) ∧
    (∀ reg a, RandomLoadBalancer.NotifyRequestSent reg a = reg ∧
              RandomLoadBalancer.NotifyRequestFinished reg a = reg) ∧
    (∀ reg a, RingHashLoadBalancer.NotifyRequestSent reg a = reg ∧
              RingHashLoadBalancer.NotifyRequestFinished reg a = reg) ∧
    (∀ reg a, MaglevLoadBalancer.NotifyRequestSent reg a = reg ∧
              MaglevLoadBalancer.NotifyRequestFinished reg a = reg) ∧
    (∀ metrics a m, mapFind a metrics = some m →
        mapFind a (PeakEwmaLoadBalancer.NotifyRequestSent metrics a) =
          some m.IncrementPending ∧
        mapFind a (PeakEwmaLoadBalancer.NotifyRequestFinished metrics a) =
          some m.DecrementPending) ∧
    (∀ evs reg, (∀ e ∈ evs, e.addr ∈ reg.map BackendInfo.address) →
        (∀ a, ∀ k ≤ evs.length,
          finCount (evs.take k) a ≤ activeOf reg a + sentCount (evs.take k) a) →
        sumActive (lrRun reg evs) + totalFin evs = sumActive reg + totalSent evs) :=
  ⟨fun _ _ => ⟨rfl, rfl⟩, fun _ _ => ⟨rfl, rfl⟩, fun _ _ => ⟨rfl, rfl⟩,
   fun _ _ => ⟨rfl, rfl⟩,
   fun metrics a m h => ⟨peak_sent_pending metrics a m h, peak_fin_pending metrics a m h⟩,
   fun evs reg h1 h2 => lr_run_sum evs reg h1 h2⟩

/-- Witness for the amended bookkeeping claim on a one-backend registry
with one sent and one finished event. -/
theorem notify_bookkeeping_amended_witness :
    WeightedRoundRobinLoadBalancer.NotifyRequestSent [⟨1, 1, 0⟩] 1 = [⟨1, 1, 0⟩] ∧
    mapFind 1 (PeakEwmaLoadBalancer.NotifyRequestSent [(1, EwmaMetric.fresh 0 10)] 1) =
      some (EwmaMetric.fresh 0 10).IncrementPending ∧
    sumActive (lrRun [⟨1, 1, 0⟩] [.sent 1, .finished 1]) +
        totalFin [.sent 1, .finished 1] =
      sumActive [⟨1, 1, 0⟩] + totalSent [.sent 1, .finished 1] := by
  refine ⟨(notify_bookkeeping_amended.1 [⟨1, 1, 0⟩] 1).1,
    (notify_bookkeeping_amended.2.2.2.2.1 [(1, EwmaMetric.fresh 0 10)] 1
      (EwmaMetric.fresh 0 10) rfl).1,
    notify_bookkeeping_amended.2.2.2.2.2 [.sent 1, .finished 1] [⟨1, 1, 0⟩]
      (by decide) ?_⟩
  intro a k hk
  have hk2 : k ≤ 2 := by simpa using hk
  by_cases ha : a = 1
  · subst ha
    interval_cases k <;> simp [finCount, sentCount, activeOf, List.find?]
  · have ha2 : ¬ (1 : Nat) = a := fun h => ha h.symm
    interval_cases k <;> simp [finCount, sentCount, activeOf, List.find?, ha, ha2]

theorem u32cast_coe (w : Nat) (h : w < 2 ^ 32) : u32cast (w : Int) = w := by
  unfold u32cast
  omega

theorem wrr_run_no_wrap (bs : List BackendInfo) (cw : Int) (mw g : Nat) :
    ∀ t i : Nat, i + t < bs.length →
    wrrStepSpec^[t] ⟨bs, i, cw, mw, g⟩ = ⟨bs, i + t, cw, mw, g⟩ := by
  intro t
  induction t with
  | zero => intro i h; simp
  | succ t ih =>
    intro i h
    rw [Function.iterate_succ_apply', ih i (by omega)]
    have hlt : i + t + 1 < bs.length := by omega
    have hmod : (i + t + 1) % bs.length = i + t + 1 := Nat.mod_eq_of_lt hlt
    simp only [wrrStepSpec, hmod]
    rw [if_neg (by omega)]
    congr 1

theorem wrr_wrap (bs : List BackendInfo) (cw : Int) (mw g : Nat)
    (hn : 0 < bs.length) :
    wrrStepSpec ⟨bs, bs.length - 1, cw, mw, g⟩ = ⟨bs, 0, wrrResetSpec (cw - g) mw, mw, g⟩ := by
  simp only [wrrStepSpec]
  have hmod : (bs.length - 1 + 1) % bs.length = 0 := by
    rw [Nat.sub_add_cancel hn, Nat.mod_self]
  simp [hmod]

theorem wrr_to_wrap (bs : List BackendInfo) (cw : Int) (mw g : Nat) (i : Nat)
    (hi : i < bs.length) :
    wrrStepSpec^[bs.length - i] ⟨bs, i, cw, mw, g⟩ = ⟨bs, 0, wrrResetSpec (cw - g) mw, mw, g⟩ := by
  have hsplit : bs.length - i = (bs.length - 1 - i) + 1 := by omega
  rw [hsplit, Function.iterate_succ_apply',
    wrr_run_no_wrap bs cw mw g (bs.length - 1 - i) i (by omega)]
  have hidx : i + (bs.length - 1 - i) = bs.length - 1 := by omega
  rw [hidx, wrr_wrap bs cw mw g (by omega)]

theorem wrr_blocks (bs : List BackendInfo) (mw g : Nat) (hn : 0 < bs.length) :
    ∀ (m : Nat) (cw : Int),
    wrrStepSpec^[m * bs.length] ⟨bs, 0, cw, mw, g⟩ = ⟨bs, 0, wrrResetIter m cw g mw, mw, g⟩ := by
  intro m
  induction m with
  | zero => intro cw; simp [wrrResetIter]
  | succ m ih =>
    intro cw
    have hsplit : (m + 1) * bs.length = m * bs.length + bs.length := by ring
    rw [hsplit, Function.iterate_add_apply]
    have h1 : wrrStepSpec^[bs.length] (⟨bs, 0, cw, mw, g⟩ : WrrState) =
        ⟨bs, 0, wrrResetSpec (cw - g) mw, mw, g⟩ := by
      have := wrr_to_wrap bs cw mw g 0 hn
      simpa using this
    rw [h1, ih]
    rfl

theorem wrr_resetIter_reaches (g mw : Nat) (hg : 0 < g) :
    ∀ (bound : Nat) (c : Int), c.toNat ≤ bound →
    ∃ m, 0 < m ∧ m ≤ c.toNat + 1 ∧ wrrResetIter m c g mw = (mw : Int) := by
  intro bound
  induction bound with
  | zero =>
    intro c hc
    refine ⟨1, by omega, by omega, ?_⟩
    show wrrResetSpec (c - g) mw = (mw : Int)
    unfold wrrResetSpec
    rw [if_pos (by omega)]
  | succ bound ih =>
    intro c hc
    by_cases hcg : c - g ≤ 0
    · refine ⟨1, by omega, by omega, ?_⟩
      show wrrResetSpec (c - g) mw = (mw : Int)
      unfold wrrResetSpec
      rw [if_pos hcg]
    · have hc' : (c - g).toNat ≤ bound := by omega
      obtain ⟨m, hm0, hmb, hmr⟩ := ih (c - g) hc'
      refine ⟨m + 1, by omega, by omega, ?_⟩
      show wrrResetIter m (wrrResetSpec (c - g) mw) g mw = (mw : Int)
      rw [show wrrResetSpec (c - g) mw = c - g from if_neg (by omega)]
      exact hmr

theorem wrr_accept_reachable (bs : List BackendInfo) (i : Nat) (cw : Int) (mw g : Nat)
    (hi : i < bs.length) (hcw : cw ≤ (mw : Int)) (hmw : 0 < mw) (hg : 0 < g)
    (hm32 : mw < 2 ^ 32) (j : Nat) (hj : j < bs.length) (hwj : bweight bs j = mw) :
    ∃ k, k < bs.length * (mw + 2) ∧
      wrrAccept (wrrStepSpec^[k + 1] ⟨bs, i, cw, mw, g⟩) = true := by
  have hn : 0 < bs.length := by omega
  obtain ⟨m, hm0, hmb, hmr⟩ := wrr_resetIter_reaches g mw hg cw.toNat cw le_rfl
  obtain ⟨m', rfl⟩ : ∃ m', m = m' + 1 := ⟨m - 1, by omega⟩
  have hA : wrrStepSpec^[bs.length - i] (⟨bs, i, cw, mw, g⟩ : WrrState) =
      ⟨bs, 0, wrrResetSpec (cw - g) mw, mw, g⟩ := wrr_to_wrap bs cw mw g i hi
  have hB : wrrStepSpec^[m' * bs.length] (⟨bs, 0, wrrResetSpec (cw - g) mw, mw, g⟩ : WrrState) =
      ⟨bs, 0, (mw : Int), mw, g⟩ := by
    have := wrr_blocks bs mw g hn m' (wrrResetSpec (cw - g) mw)
    rw [this]
    have : wrrResetIter m' (wrrResetSpec (cw - g) mw) g mw = wrrResetIter (m' + 1) cw g mw := rfl
    rw [this, hmr]
  have hC : wrrStepSpec^[j] (⟨bs, 0, (mw : Int), mw, g⟩ : WrrState) =
      ⟨bs, j, (mw : Int), mw, g⟩ := by
    have := wrr_run_no_wrap bs (mw : Int) mw g j 0 (by omega)
    simpa using this
  have hacc : wrrAccept ⟨bs, j, (mw : Int), mw, g⟩ = true := by
    simp only [wrrAccept, hwj, u32cast_coe mw hm32]
    simp [hmw]
  set S := j + (m' * bs.length + (bs.length - i)) with hS
  have hiter : wrrStepSpec^[S] (⟨bs, i, cw, mw, g⟩ : WrrState) = ⟨bs, j, (mw : Int), mw, g⟩ := by
    rw [hS, Function.iterate_add_apply, Function.iterate_add_apply, hA, hB, hC]
  have hS1 : 1 ≤ S := by
    have : 1 ≤ bs.length - i := by omega
    omega
  refine ⟨S - 1, ?_, ?_⟩
  · have hm'b : m' ≤ mw := by omega
    have hmul : m' * bs.length ≤ mw * bs.length := Nat.mul_le_mul_right _ hm'b
    have hexp : bs.length * (mw + 2) = mw * bs.length + 2 * bs.length := by ring
    omega
  · rw [show S - 1 + 1 = S by omega, hiter, hacc]

theorem i32wrap_id (x : Int) (h1 : -(2 ^ 31) ≤ x) (h2 : x < 2 ^ 31) : i32wrap x = x := by
  unfold i32wrap
  omega

theorem wrrStep_eq_spec (st : WrrState) (h0 : 0 ≤ st.currentWeight)
    (h1 : st.currentWeight ≤ (st.maxWeight : Int)) (h2 : st.maxWeight < 2 ^ 31)
    (h3 : st.gcdWeight ≤ st.maxWeight) : wrrStep st = wrrStepSpec st := by
  obtain ⟨bs, ci, cw, mw, g⟩ := st
  have h0' : (0 : Int) ≤ cw := h0
  have h1' : cw ≤ (mw : Int) := h1
  have h2' : mw < 2 ^ 31 := h2
  have h3' : g ≤ mw := h3
  simp only [wrrStep, wrrStepSpec]
  by_cases hi : (ci + 1) % bs.length = 0
  · rw [if_pos hi, if_pos hi]
    have hw : i32wrap (cw - (g : Int)) = cw - (g : Int) := by
      apply i32wrap_id
      · omega
      · omega
    rw [hw]
    unfold wrrReset wrrResetSpec
    by_cases hc : cw - (g : Int) ≤ 0
    · rw [if_pos hc, if_pos hc, i32wrap_id]
      · omega
      · omega
    · rw [if_neg hc, if_neg hc]
  · rw [if_neg hi, if_neg hi]

theorem wrrStepSpec_bounds (st : WrrState) (h0 : 0 ≤ st.currentWeight)
    (h1 : st.currentWeight ≤ (st.maxWeight : Int)) :
    0 ≤ (wrrStepSpec st).currentWeight ∧
    (wrrStepSpec st).currentWeight ≤ ((wrrStepSpec st).maxWeight : Int) ∧
    (wrrStepSpec st).maxWeight = st.maxWeight ∧
    (wrrStepSpec st).gcdWeight = st.gcdWeight := by
  obtain ⟨bs, ci, cw, mw, g⟩ := st
  have h0' : (0 : Int) ≤ cw := h0
  have h1' : cw ≤ (mw : Int) := h1
  simp only [wrrStepSpec]
  by_cases hi : (ci + 1) % bs.length = 0
  · rw [if_pos hi]
    unfold wrrResetSpec
    by_cases hc : cw - (g : Int) ≤ 0
    · rw [if_pos hc]
      refine ⟨?_, ?_, rfl, rfl⟩
      · show (0 : Int) ≤ (mw : Int)
        omega
      · show (mw : Int) ≤ (mw : Int)
        omega
    · rw [if_neg hc]
      refine ⟨?_, ?_, rfl, rfl⟩
      · show (0 : Int) ≤ cw - (g : Int)
        omega
      · show cw - (g : Int) ≤ (mw : Int)
        omega
  · rw [if_neg hi]
    exact ⟨h0', h1', rfl, rfl⟩

theorem wrr_iterate_eq : ∀ (k : Nat) (st : WrrState),
    st.maxWeight < 2 ^ 31 → st.gcdWeight ≤ st.maxWeight →
    0 ≤ st.currentWeight → st.currentWeight ≤ (st.maxWeight : Int) →
    wrrStep^[k] st = wrrStepSpec^[k] st := by
  intro k
  induction k with
  | zero => intro st _ _ _ _; rfl
  | succ k ih =>
    intro st h2 h3 h0 h1
    rw [Function.iterate_succ_apply, Function.iterate_succ_apply,
        wrrStep_eq_spec st h0 h1 h2 h3]
    obtain ⟨p0, p1, pm, pg⟩ := wrrStepSpec_bounds st h0 h1
    exact ih (wrrStepSpec st) (by rw [pm]; exact h2) (by rw [pg, pm]; exact h3) p0 p1

theorem wrrLoop_first : ∀ (fuel : Nat) (st : WrrState),
    (∃ k, k < fuel ∧ wrrAccept (wrrStep^[k + 1] st) = true) →
    ∃ i st' k, wrrLoop fuel st = some (i, st') ∧ st' = wrrStep^[k + 1] st ∧ k < fuel ∧
      i = st'.currentIndex ∧ wrrAccept st' = true ∧
      ∀ j, j < k → wrrAccept (wrrStep^[j + 1] st) = false := by
  intro fuel
  induction fuel with
  | zero =>
    intro st h
    obtain ⟨k, hk, -⟩ := h
    omega
  | succ fuel ih =>
    intro st h
    by_cases hacc : wrrAccept (wrrStep st) = true
    · refine ⟨(wrrStep st).currentIndex, wrrStep st, 0, ?_, by simp, by omega, rfl, hacc, ?_⟩
      · simp only [wrrLoop, hacc, if_pos]
      · intro j hj; omega
    · obtain ⟨k, hk, hka⟩ := h
      have hk0 : k ≠ 0 := by
        intro h0
        subst h0
        exact hacc (by simpa using hka)
      obtain ⟨k', rfl⟩ : ∃ k', k = k' + 1 := ⟨k - 1, by omega⟩
      have hka' : wrrAccept (wrrStep^[k' + 1] (wrrStep st)) = true := by
        rw [← Function.iterate_succ_apply]
        exact hka
      obtain ⟨i, st', k'', hloop, hst', hk'', hidx, hacc', hfirst⟩ :=
        ih (wrrStep st) ⟨k', by omega, hka'⟩
      refine ⟨i, st', k'' + 1, ?_, ?_, by omega, hidx, hacc', ?_⟩
      · simp only [wrrLoop, hacc]
        simpa using hloop
      · rw [hst']
        simp only [Function.iterate_succ_apply]
      · intro j hj
        cases j with
        | zero =>
          simpa using hacc
        | succ j' =>
          rw [Function.iterate_succ_apply]
          exact hfirst j' (by omega)

/-- C7 (counterexample): with backend weights 3·2^30 (address 1) and
2^31 (address 2), the claimed exact-integer loop and the int32
implementation diverge.  After the first wrap the stored marker is
−2^30 — the uint32 maximum weight 3·2^30 wrapped into int32 — instead
of the claimed max_w = 3·2^30, and at the fourth iteration the claimed
algorithm accepts the weight-2^31 backend (marker 2^31 after one
decrement) while the code rejects it: its marker, cast back to uint32
for the comparison, stays 3·2^30 > 2^31, so the code starves that
backend. -/
theorem wrr_int32_wrap_selection_cex :
    wrrWideState.maxWeight = 3 * 2 ^ 30 ∧
    (wrrStep wrrWideState).currentWeight = -(2 ^ 30) ∧
    (wrrStepSpec wrrWideState).currentWeight = (3 * 2 ^ 30 : Int) ∧
    wrrAccept (wrrStep^[4] wrrWideState) = false ∧
    wrrAccept (wrrStepSpec^[4] wrrWideState) = true := by
  decide

/-- C7 (amended): `WeightedRoundRobinLoadBalancer::ChooseBackend`
behaves as the Nginx smooth WRR on the states whose maximum weight fits
in int32 (max_w < 2^31; beyond that the int32 marker wraps and the
selection sequence diverges from the claimed exact-integer loop).  On
an empty backend list it fails; when present backends all have weight 0
it falls back to the first backend; otherwise the implementation's step
function agrees with the claimed exact-integer iteration (advance the
index mod n, decrement the marker by the gcd at each wrap, reset it to
the maximum weight at 0 or below), and the selection loop terminates
within its fuel at the FIRST state along that iteration whose backend
is accepted, i.e. has positive weight at least the (uint32-cast)
marker. -/
theorem wrr_chooseBackend_spec (st : WrrState) (hinv : WrrInv st) :
    (∀ k, wrrStep^[k] st = wrrStepSpec^[k] st) ∧
    (st.backends = [] →
      WeightedRoundRobinLoadBalancer.ChooseBackend st = (none, st)) ∧
    (st.backends ≠ [] → st.maxWeight = 0 →
      WeightedRoundRobinLoadBalancer.ChooseBackend st =
        (some (baddr st.backends 0), st)) ∧
    (0 < st.maxWeight →
      ∃ i st' k,
        wrrLoop (wrrFuel st) st = some (i, st') ∧
        WeightedRoundRobinLoadBalancer.ChooseBackend st =
          (some (baddr st.backends i), st') ∧
        st' = wrrStepSpec^[k + 1] st ∧ k + 1 ≤ wrrFuel st ∧
        i = st'.currentIndex ∧ wrrAccept st' = true ∧
        ∀ j, j < k → wrrAccept (wrrStepSpec^[j + 1] st) = false) := by
  obtain ⟨hidx, hcw0, hcw, hm31, hgm, hpos⟩ := hinv
  have hEq : ∀ k, wrrStep^[k] st = wrrStepSpec^[k] st := fun k =>
    wrr_iterate_eq k st hm31 hgm hcw0 hcw
  refine ⟨hEq, ?_, ?_, ?_⟩
  · intro h
    simp [WeightedRoundRobinLoadBalancer.ChooseBackend, h]
  · intro h hm
    have hlen : st.backends.length ≠ 0 := by
      intro hc
      exact h (List.length_eq_zero.mp hc)
    simp [WeightedRoundRobinLoadBalancer.ChooseBackend, hlen, hm]
  · intro hmw
    obtain ⟨hg, j, hj, hwj⟩ := hpos hmw
    have hlen : 0 < st.backends.length := by omega
    have hi : st.currentIndex < st.backends.length := by
      apply hidx
      intro hnil
      rw [hnil] at hlen
      simp at hlen
    have hm32 : st.maxWeight < 2 ^ 32 := by omega
    obtain ⟨bs, ci, cw, mw, g⟩ := st
    obtain ⟨k, hkb, hka⟩ :=
      wrr_accept_reachable bs ci cw mw g hi hcw hmw hg hm32 j hj hwj
    have hka2 : wrrAccept (wrrStep^[k + 1] ⟨bs, ci, cw, mw, g⟩) = true := by
      rw [hEq (k + 1)]
      exact hka
    have hfuel : k < wrrFuel ⟨bs, ci, cw, mw, g⟩ := by
      simp only [wrrFuel]
      omega
    obtain ⟨i, st', k'', hloop, hst', hk'', hidx', hacc', hfirst⟩ :=
      wrrLoop_first (wrrFuel ⟨bs, ci, cw, mw, g⟩) ⟨bs, ci, cw, mw, g⟩ ⟨k, hfuel, hka2⟩
    refine ⟨i, st', k'', hloop, ?_, ?_, hk'', hidx', hacc', ?_⟩
    · have hlen2 : 0 < bs.length := by simpa using hlen
      have hlen' : ¬ bs.length = 0 := by omega
      have hmw2 : 0 < mw := by simpa using hmw
      have hm0 : ¬ mw = 0 := by omega
      simp [WeightedRoundRobinLoadBalancer.ChooseBackend, hlen', hm0, hloop]
    · rw [hst', hEq (k'' + 1)]
    · intro j2 hj2
      rw [← hEq (j2 + 1)]
      exact hfirst j2 hj2

/-- C7 witness: the amended smooth-WRR characterisation applied to the
selector state over the single backend (address 7, weight 1), whose
invariant holds by evaluation. -/
theorem wrr_chooseBackend_spec_witness :
    WrrInv wrrSingleBackend ∧
    ((∀ k, wrrStep^[k] wrrSingleBackend = wrrStepSpec^[k] wrrSingleBackend) ∧
    (wrrSingleBackend.backends = [] →
      WeightedRoundRobinLoadBalancer.ChooseBackend wrrSingleBackend =
        (none, wrrSingleBackend)) ∧
    (wrrSingleBackend.backends ≠ [] → wrrSingleBackend.maxWeight = 0 →
      WeightedRoundRobinLoadBalancer.ChooseBackend wrrSingleBackend =
        (some (baddr wrrSingleBackend.backends 0), wrrSingleBackend)) ∧
    (0 < wrrSingleBackend.maxWeight →
      ∃ i st' k,
        wrrLoop (wrrFuel wrrSingleBackend) wrrSingleBackend = some (i, st') ∧
        WeightedRoundRobinLoadBalancer.ChooseBackend wrrSingleBackend =
          (some (baddr wrrSingleBackend.backends i), st') ∧
        st' = wrrStepSpec^[k + 1] wrrSingleBackend ∧
        k + 1 ≤ wrrFuel wrrSingleBackend ∧
        i = st'.currentIndex ∧ wrrAccept st' = true ∧
        ∀ j, j < k → wrrAccept (wrrStepSpec^[j + 1] wrrSingleBackend) = false)) :=
  have hinv : WrrInv wrrSingleBackend :=
    ⟨by decide, by decide, by decide, by decide, by decide,
     fun _ => ⟨by decide, 0, by decide, by decide⟩⟩
  ⟨hinv, wrr_chooseBackend_spec wrrSingleBackend hinv⟩
